import Mathlib

/-!
Verification development for the real-time voice session gateway and client
audio pipeline of a language-tutoring application.

The definitions below are a shallow embedding of the TypeScript source:

* the server-side WebSocket gateway (`checkLiveRateLimit`, `recordSessionStart`,
  `recordSessionEnd`, `sanitizeContext`, `validateLiveInit`, and the
  per-connection message/lifecycle handlers of `setupLiveWs`);
* the client-side audio codec (`createBlob`, `decodeAudioData`), the playback
  scheduler, and the microphone-activation logic of the `LiveTutor` component.

JavaScript strings are modelled as `List Char` (wrapped in `String`);
JavaScript `number` timestamps as `Int` (milliseconds); audio clock values and
float samples as `ℚ`.  Callback-driven code is modelled as a step function over
an explicit connection state, driven by a list of timestamped events; the
environment's scheduling constraints (event order the JS runtime guarantees)
are captured by a decidable admissibility predicate on traces.
-/

/-! ## JavaScript character classes and string helpers -/

/-- The characters matched by JavaScript's `\s` (whitespace) class, which is
also the set trimmed by `String.prototype.trim`. -/
def isJsWs (c : Char) : Bool :=
  c = ' ' || c.toNat = 0x09 || c.toNat = 0x0a || c.toNat = 0x0b ||
  c.toNat = 0x0c || c.toNat = 0x0d || c.toNat = 0xa0 || c.toNat = 0x1680 ||
  (0x2000 ≤ c.toNat && c.toNat ≤ 0x200a) || c.toNat = 0x2028 ||
  c.toNat = 0x2029 || c.toNat = 0x202f || c.toNat = 0x205f ||
  c.toNat = 0x3000 || c.toNat = 0xfeff

/-- The characters stripped by the gateway's control-character filter
`/[\x00-\x1f\x7f]/g`. -/
def isCtl (c : Char) : Bool :=
  c.toNat ≤ 0x1f || c.toNat = 0x7f

/-- `replace(/\s+/g, ' ')`: every maximal run of whitespace becomes a single
space.  The flag records whether the previous character was whitespace (in
which case further whitespace of the same run is dropped). -/
def collapseWsAux (prevWs : Bool) : List Char → List Char
  | [] => []
  | c :: rest =>
    if isJsWs c then
      if prevWs then collapseWsAux true rest
      else ' ' :: collapseWsAux true rest
    else c :: collapseWsAux false rest

/-- Leading-whitespace removal, as in `String.prototype.trim`. -/
def jsTrimLeft (l : List Char) : List Char :=
  l.dropWhile isJsWs

/-- Trailing-whitespace removal, as in `String.prototype.trim`. -/
def jsTrimRight : List Char → List Char
  | [] => []
  | c :: rest =>
    match jsTrimRight rest with
    | [] => if isJsWs c then [] else [c]
    | r => c :: r

/-- `String.prototype.trim`: drop JS whitespace from both ends. -/
def jsTrim (l : List Char) : List Char :=
  jsTrimRight (jsTrimLeft l)

/-- `String.prototype.trim` on Lean strings. -/
def jsTrimStr (s : String) : String :=
  ⟨jsTrim s.data⟩

/-! ## Gateway configuration constants (`config/safety.ts`, `live.ts`) -/

/-- Allowed languages for the Live tutor (allowlist), from `config/safety.ts`. -/
def ALLOWED_LANGUAGES : List String :=
  ["Spanish", "French", "Japanese", "German", "Italian", "Chinese", "Hindi",
   "Tamil", "English"]

/-- Max character length for Live context, from `config/safety.ts`. -/
def CONTEXT_MAX_LENGTH : Nat := 100

/-- Session duration ceiling in milliseconds (8 minutes). -/
def SESSION_MAX_DURATION_MS : Int := 8 * 60 * 1000

/-- Concurrency limit per client IP. -/
def MAX_CONCURRENT_SESSIONS_PER_IP : Nat := 5

/-- Rolling hourly session limit per client IP. -/
def MAX_SESSIONS_PER_IP_PER_HOUR : Nat := 20

/-! ## Context sanitization and init validation (`live.ts`) -/

/-- `sanitizeContext` on character lists:
`String(raw).replace(/\s+/g, ' ').trim()`, then strip `[\x00-\x1f\x7f]`,
then `.slice(0, CONTEXT_MAX_LENGTH)`. -/
def sanitizeList (l : List Char) : List Char :=
  ((jsTrim (collapseWsAux false l)).filter (fun c => !(isCtl c))).take
    CONTEXT_MAX_LENGTH

/-- `sanitizeContext` from `live.ts`. -/
def sanitizeContext (s : String) : String :=
  ⟨sanitizeList s.data⟩

/-- Result of `validateLiveInit`: either the trimmed language and sanitized
context, or an error message. -/
inductive ValidateResult
  | ok (language context : String)
  | err (message : String)
deriving DecidableEq

/-- Whether validation succeeded. -/
def ValidateResult.isOk : ValidateResult → Bool
  | .ok _ _ => true
  | .err _ => false

/-- `validateLiveInit` from `live.ts`: the trimmed language must be in the
allow-list and the sanitized context must be non-empty (JS truthiness of a
string is non-emptiness). -/
def validateLiveInit (language context : String) : ValidateResult :=
  let lang := jsTrimStr language
  if ALLOWED_LANGUAGES.contains lang then
    let sanitized := sanitizeContext context
    if sanitized = "" then .err "Invalid context"
    else .ok lang sanitized
  else .err "Invalid language"

/-! ## Per-IP rate/concurrency state (`live.ts`) -/

/-- One entry of the `ipSessions` map: concurrent-session count and
session-start timestamps (milliseconds). -/
structure RLEntry where
  count : Nat
  timestamps : List Int
deriving DecidableEq

/-- `checkLiveRateLimit`: create the IP's entry if absent, prune timestamps to
the trailing hour, then check the concurrency limit and the hourly limit.
Returns the updated entry (always present afterwards), whether the attempt is
allowed, and the rejection reason. -/
def checkLiveRateLimit (r : Option RLEntry) (now : Int) :
    RLEntry × Bool × String :=
  let hourAgo := now - 60 * 60 * 1000
  let e := r.getD ⟨0, []⟩
  let e : RLEntry := ⟨e.count, e.timestamps.filter (fun t => hourAgo < t)⟩
  if MAX_CONCURRENT_SESSIONS_PER_IP ≤ e.count then
    (e, false, "Too many concurrent sessions")
  else if MAX_SESSIONS_PER_IP_PER_HOUR ≤ e.timestamps.length then
    (e, false, "Rate limit exceeded")
  else (e, true, "")

/-- `recordSessionStart`: if the IP's entry exists, increment the concurrent
count and push the current timestamp. -/
def recordSessionStart (r : Option RLEntry) (now : Int) : Option RLEntry :=
  match r with
  | some e => some ⟨e.count + 1, e.timestamps ++ [now]⟩
  | none => none

/-- `recordSessionEnd`: if the IP's entry exists and the count is positive,
decrement it. -/
def recordSessionEnd (r : Option RLEntry) : Option RLEntry :=
  match r with
  | some e => if 0 < e.count then some ⟨e.count - 1, e.timestamps⟩ else some e
  | none => none

/-- Concurrent-session count stored for the IP (0 when no entry exists). -/
def rlCount : Option RLEntry → Nat
  | none => 0
  | some e => e.count

/-- Session-start timestamps stored for the IP ([] when no entry exists). -/
def rlTimes : Option RLEntry → List Int
  | none => []
  | some e => e.timestamps

/-! ## Gateway wire messages (`live.ts`) -/

/-- An `{audio: {data, mimeType}}` chunk as sent in `realtime` messages. -/
structure AudioChunk where
  data : String
  mimeType : String
deriving DecidableEq

/-- One `{text}` part of a content turn. -/
structure TurnPart where
  text : String
deriving DecidableEq

/-- One `{role, parts}` turn of a `content` message. -/
structure Turn where
  role : String
  parts : List TurnPart
deriving DecidableEq

/-- A parsed client→gateway message (`ClientMsg` in `live.ts`).  Optional
fields model JS `undefined`; `init` field checks use JS truthiness, so an
empty string behaves like an absent field. -/
inductive CMsg
  | init (language context pronunciationMode : Option String)
  | realtime (audio : Option AudioChunk)
  | content (turns : Option (List Turn)) (turnComplete : Option Bool)
  | other
deriving DecidableEq

/-- A call made on the upstream provider session handle. -/
inductive UpCall
  | sendRealtime (audio : AudioChunk)
  | sendContent (turns : List Turn) (turnComplete : Bool)
  | closeSession
deriving DecidableEq

/-- A gateway→client event written to the client WebSocket. -/
inductive SEvent
  | openEv
  | errorEv (message : String)
  | closeEv
  | forwardEv (payload : String)
deriving DecidableEq

/-- Translate a queued client message into the upstream call `flushPending`
would issue for it (`none` for shapes the flush loop skips). -/
def msgToCall : CMsg → Option UpCall
  | .realtime (some a) => some (.sendRealtime a)
  | .content (some ts) tc => some (.sendContent ts (tc.getD true))
  | _ => none

/-! ## Per-connection gateway state (`setupLiveWs` closure variables) -/

/-- The mutable per-connection state of `setupLiveWs`'s connection handler,
together with append-only logs of the calls made on the upstream handle
(`upLog`) and the events sent to the client socket (`sent`).
`connectCount` counts calls of `ai.live.connect`; `opened`, `resolvedDone` and
`failedDone` record which upstream callbacks have already run (the connect
promise settles at most once). -/
structure Conn where
  initDone : Bool := false
  connectCount : Nat := 0
  opened : Bool := false
  resolvedDone : Bool := false
  failedDone : Bool := false
  sessionSet : Bool := false
  timerDeadline : Option Int := none
  pending : List CMsg := []
  upLog : List UpCall := []
  sent : List SEvent := []
  closed : Bool := false
deriving DecidableEq

/-- `clientWs.send(...)` inside `try`/`catch`: sending on a closed socket
throws and the event is dropped. -/
def sendEv (c : Conn) (e : SEvent) : Conn :=
  if c.closed then c else { c with sent := c.sent ++ [e] }

/-- The fresh connection state created on `wss.on('connection', ...)`. -/
def initConn : Conn := {}

/-- The `clientWs.on('message', ...)` handler.  `now` is `Date.now()` at the
time the handler runs.  Assumes the server is deployed with an upstream API
key and a Live-capable SDK (`getAI` succeeds and `ai.live.connect` exists), so
the corresponding error branches are unreachable. -/
def onClientMsg (now : Int) (c : Conn) (r : Option RLEntry) (m : CMsg) :
    Conn × Option RLEntry :=
  match m with
  | .init language context _pronunciationMode =>
    if c.initDone then (c, r)
    else if language.getD "" = "" || context.getD "" = "" then
      (sendEv c (.errorEv "init requires language and context"), r)
    else
      let res := checkLiveRateLimit r now
      if !res.2.1 then (sendEv c (.errorEv res.2.2), some res.1)
      else
        match validateLiveInit (language.getD "") (context.getD "") with
        | .err message => (sendEv c (.errorEv message), some res.1)
        | .ok _ _ =>
          ({ c with initDone := true, connectCount := c.connectCount + 1 },
           some res.1)
  | .realtime audio =>
    match audio with
    | none => (c, r)
    | some a =>
      if c.sessionSet then ({ c with upLog := c.upLog ++ [.sendRealtime a] }, r)
      else ({ c with pending := c.pending ++ [m] }, r)
  | .content turns turnComplete =>
    match turns with
    | none => (c, r)
    | some ts =>
      if c.sessionSet then
        ({ c with upLog := c.upLog ++ [.sendContent ts (turnComplete.getD true)] },
         r)
      else ({ c with pending := c.pending ++ [m] }, r)
  | .other => (c, r)

/-- The `onopen` callback of `ai.live.connect`: record the session start,
start the duration timer (its deadline is `now + SESSION_MAX_DURATION_MS`),
and send `{type: 'open'}` to the client. -/
def onUpstreamOpen (now : Int) (c : Conn) (r : Option RLEntry) :
    Conn × Option RLEntry :=
  let r := recordSessionStart r now
  let c := { c with opened := true,
                    timerDeadline := some (now + SESSION_MAX_DURATION_MS) }
  (sendEv c .openEv, r)

/-- The `.then((s) => { session = s; flushPending(); })` continuation of the
connect promise: the handle becomes available and the pending queue is drained
in FIFO order, then cleared. -/
def onUpstreamResolve (c : Conn) : Conn :=
  let c := { c with sessionSet := true, resolvedDone := true }
  { c with upLog := c.upLog ++ c.pending.filterMap msgToCall, pending := [] }

/-- The `.catch` continuation of the connect promise. -/
def onUpstreamFail (c : Conn) : Conn :=
  sendEv { c with failedDone := true } (.errorEv "Connection failed")

/-- The `onmessage` upstream callback: forward the provider payload verbatim. -/
def onUpstreamMsg (c : Conn) (payload : String) : Conn :=
  sendEv c (.forwardEv payload)

/-- The `onerror` upstream callback. -/
def onUpstreamErr (c : Conn) : Conn :=
  sendEv c (.errorEv "Connection error")

/-- The `onclose` upstream callback. -/
def onUpstreamClose (c : Conn) : Conn :=
  sendEv c .closeEv

/-- The duration-timer callback: clear the timer, force-close the upstream
handle if it exists, release the rate accounting, send `{type: 'close'}`. -/
def onTimerFire (c : Conn) (r : Option RLEntry) : Conn × Option RLEntry :=
  let c := { c with timerDeadline := none }
  let c :=
    if c.sessionSet then
      { c with upLog := c.upLog ++ [.closeSession], sessionSet := false }
    else c
  (sendEv c .closeEv, recordSessionEnd r)

/-- The `clientWs.on('close', ...)` handler: clear the timer, release the rate
accounting, close the upstream handle if it exists. -/
def onWsClose (c : Conn) (r : Option RLEntry) : Conn × Option RLEntry :=
  let c := { c with timerDeadline := none, closed := true }
  let c :=
    if c.sessionSet then { c with upLog := c.upLog ++ [.closeSession] }
    else c
  (c, recordSessionEnd r)

/-- An input event delivered to one connection's handlers. -/
inductive Ev
  | clientMsg (m : CMsg)
  | upstreamOpen
  | upstreamResolve
  | upstreamFail
  | upstreamMsg (payload : String)
  | upstreamErr
  | upstreamClose
  | timerFire
  | wsClose
deriving DecidableEq

/-- A timestamped event (`time` is `Date.now()` when the handler runs). -/
structure TEv where
  time : Int
  ev : Ev
deriving DecidableEq

/-- Dispatch one event to the corresponding handler. -/
def stepT (s : Conn × Option RLEntry) (te : TEv) : Conn × Option RLEntry :=
  match te.ev with
  | .clientMsg m => onClientMsg te.time s.1 s.2 m
  | .upstreamOpen => onUpstreamOpen te.time s.1 s.2
  | .upstreamResolve => (onUpstreamResolve s.1, s.2)
  | .upstreamFail => (onUpstreamFail s.1, s.2)
  | .upstreamMsg p => (onUpstreamMsg s.1 p, s.2)
  | .upstreamErr => (onUpstreamErr s.1, s.2)
  | .upstreamClose => (onUpstreamClose s.1, s.2)
  | .timerFire => onTimerFire s.1 s.2
  | .wsClose => onWsClose s.1 s.2

/-- Run a connection from a given state through a list of events. -/
def runGw (s : Conn × Option RLEntry) (es : List TEv) : Conn × Option RLEntry :=
  es.foldl stepT s

/-- Whether one event may be delivered next, given the previous event's time
and the current state.  This encodes what the JS runtime guarantees: time is
monotone; a pending `setTimeout` fires exactly at its deadline and nothing is
delivered beyond a pending deadline before the timer fires; client messages
and a close arrive only while the socket is open; the upstream connect promise
settles (open/fail) at most once, and the upstream callbacks fire only after a
connect was issued. -/
def admissible (lastTime : Option Int) (s : Conn × Option RLEntry) (te : TEv) :
    Bool :=
  let c := s.1
  (match lastTime with | some t => decide (t ≤ te.time) | none => true) &&
  (match c.timerDeadline with
   | some d => decide (te.time ≤ d)
   | none => true) &&
  (match te.ev with
   | .clientMsg _ => !c.closed
   | .upstreamOpen => decide (0 < c.connectCount) && !c.opened && !c.failedDone
   | .upstreamResolve => c.opened && !c.resolvedDone
   | .upstreamFail => decide (0 < c.connectCount) && !c.opened && !c.failedDone
   | .upstreamMsg _ => c.opened
   | .upstreamErr => c.opened
   | .upstreamClose => c.opened
   | .timerFire => c.timerDeadline = some te.time
   | .wsClose => !c.closed)

/-- Trace well-formedness from a given last-event time and state. -/
def wfFrom (lastTime : Option Int) (s : Conn × Option RLEntry) :
    List TEv → Bool
  | [] => true
  | te :: rest =>
    admissible lastTime s te && wfFrom (some te.time) (stepT s te) rest

/-- Well-formedness of a whole trace from the fresh connection state. -/
def wfTrace (es : List TEv) : Bool :=
  wfFrom none (initConn, none) es

/-- Prompt-handshake assumption from a given state: whenever the connect
promise resolves, the duration timer is still pending (the upstream handshake
completes within the session ceiling). -/
def promptFrom (s : Conn × Option RLEntry) : List TEv → Bool
  | [] => true
  | te :: rest =>
    (te.ev = Ev.upstreamResolve → s.1.timerDeadline.isSome) &&
    promptFrom (stepT s te) rest

/-- Prompt-handshake assumption for a whole trace. -/
def promptTrace (es : List TEv) : Bool :=
  promptFrom (initConn, none) es

/-- The queueable client messages of a trace, in arrival order: exactly those
`realtime`/`content` messages the gateway would queue or relay. -/
def collectQueued (es : List TEv) : List CMsg :=
  es.filterMap (fun te =>
    match te.ev with
    | .clientMsg m => if (msgToCall m).isSome then some m else none
    | _ => none)

/-! ## Client microphone activation (`LiveTutor`, proxied path) -/

/-- The `LiveTutor` client state relevant to microphone handling:
`micPermRequested` records that `navigator.mediaDevices.getUserMedia` has been
called (the permission prompt), `micStream` that a stream was obtained, and
`micStarted` (`micStartedRef`) that the capture pipeline (script processor)
was wired up.  `getUserMedia` is assumed to succeed. -/
structure CState where
  pronunciationMode : String
  opened : Bool := false
  micPermRequested : Bool := false
  micStream : Bool := false
  micStarted : Bool := false
deriving DecidableEq

/-- A gateway→client event as seen by the `LiveTutor` socket handler. -/
inductive ClEv
  | openEv
  | audioChunk
  | textPart
  | interrupted
  | errorEv
  | closeEv
deriving DecidableEq

/-- One step of the proxied `LiveTutor` handler, restricted to the microphone
fields.  On `{type:'open'}` the handler always calls `getUserMedia` and, in
score mode only, wires the capture pipeline immediately.  On the first
provider message carrying inline audio it sets `micStartedRef`, requests the
stream if it does not exist yet, and wires the capture pipeline. -/
def clStep (st : CState) (e : ClEv) : CState :=
  match e with
  | .openEv =>
    let st := { st with opened := true, micPermRequested := true,
                        micStream := true }
    if st.pronunciationMode = "score" then { st with micStarted := true }
    else st
  | .audioChunk =>
    if st.micStarted then st
    else
      { st with micStarted := true,
                micPermRequested := st.micPermRequested || !st.micStream,
                micStream := true }
  | _ => st

/-- Run the client handler over a list of events. -/
def clRun (st : CState) (es : List ClEv) : CState :=
  es.foldl clStep st

/-- Fresh client state for a given pronunciation mode. -/
def clInit (mode : String) : CState :=
  { pronunciationMode := mode }

/-! ## Playback scheduler (`LiveTutor` output path) -/

/-- The playback scheduler state: the `nextStartTimeRef` cursor, the set of
live (scheduled, not yet ended) buffer sources, a log of stopped sources, and
a fresh-id counter.  Clock values and durations are in seconds (`ℚ`). -/
structure Sched where
  nextStartTime : ℚ := 0
  live : List Nat := []
  stopped : List Nat := []
  nextId : Nat := 0
deriving DecidableEq

/-- Scheduling one decoded buffer: `nextStartTime = max(nextStartTime, now)`,
`source.start(nextStartTime)`, `nextStartTime += duration`, add the source to
the live set.  Returns the start time assigned to the buffer. -/
def scheduleChunk (st : Sched) (now dur : ℚ) : Sched × ℚ :=
  let s := max st.nextStartTime now
  ({ st with nextStartTime := s + dur, live := st.live ++ [st.nextId],
             nextId := st.nextId + 1 },
   s)

/-- The `ended` listener: remove the source from the live set. -/
def onEnded (st : Sched) (id : Nat) : Sched :=
  { st with live := st.live.filter (fun i => i ≠ id) }

/-- The `serverContent.interrupted` handler: stop every live source, clear the
live set, reset `nextStartTime` to 0. -/
def interruptSched (st : Sched) : Sched :=
  { st with stopped := st.stopped ++ st.live, live := [], nextStartTime := 0 }

/-- Schedule a sequence of `(arrivalTime, duration)` buffers, collecting the
assigned start times. -/
def schedStarts (st : Sched) : List (ℚ × ℚ) → Sched × List ℚ
  | [] => (st, [])
  | (t, d) :: rest =>
    let p := scheduleChunk st t d
    let q := schedStarts p.1 rest
    (q.1, p.2 :: q.2)

/-- Modelled from the spec: the gapless start-time sequence it requires,
`start(1) = s0` and `start(n+1) = start(n) + d(n)`. -/
def specNoGapStarts (s0 : ℚ) : List ℚ → List ℚ
  | [] => []
  | d :: ds => s0 :: specNoGapStarts (s0 + d) ds

/-! ## Audio codec (`createBlob`, `decodeAudioData`) -/

/-- `Math.round`: round half toward positive infinity. -/
def jsRound (q : ℚ) : ℤ :=
  ⌊q + 1 / 2⌋

/-- One sample of `createBlob`: clamp to `[-1, 1]`, scale by 32768, round,
clamp to the signed 16-bit range. -/
def encodeSample (x : ℚ) : ℤ :=
  max (-32768) (min 32767 (jsRound (max (-1) (min 1 x) * 32768)))

/-- One sample of `decodeAudioData` (mono): divide the 16-bit integer by
32768. -/
def decodeSample (i : ℤ) : ℚ :=
  (i : ℚ) / 32768

/-- `createBlob` at the sample level: the Int16 sample values written into the
outgoing buffer.  (The byte/base64 transport around them — `Int16Array`
little-endian bytes, `btoa` — is a bijection inverted exactly by the client's
`decode`/`Int16Array` reinterpretation and carries no numerical content.) -/
def createBlobSamples (data : List ℚ) : List ℤ :=
  data.map encodeSample

/-- `decodeAudioData` at the sample level for mono buffers (the only shape the
client uses: `decodeAudioData(..., 24000, 1)`). -/
def decodeAudioDataMono (ints : List ℤ) : List ℚ :=
  ints.map decodeSample


/-! ## Canonical-form helpers for sanitization proofs -/

/-- Canonical whitespace form tracked by `collapseWsAux`: every whitespace
character is a single space and no two whitespace characters are adjacent
(the flag records whether the previous character was whitespace). -/
def okAux (prevWs : Bool) : List Char → Bool
  | [] => true
  | c :: rest =>
    if isJsWs c then (!prevWs && (c == ' ')) && okAux true rest
    else okAux false rest

/-- The first character (if any) is not whitespace. -/
def headOk : List Char → Bool
  | [] => true
  | c :: _ => !isJsWs c

/-- The start times assigned by `schedStarts` depend only on the cursor. -/
def schedStartsList (nst : ℚ) : List (ℚ × ℚ) → List ℚ
  | [] => []
  | (t, d) :: rest => max nst t :: schedStartsList (max nst t + d) rest

/-! ## Codec lemmas -/

/-- One-sample round trip: for an in-range sample the encode/decode round trip
is within 1/32768. -/
theorem encodeSample_roundTrip (x : ℚ) (h1 : -1 ≤ x) (h2 : x ≤ 1) :
    |decodeSample (encodeSample x) - x| ≤ 1 / 32768 := by
  have hclamp : max (-1) (min 1 x) = x := by
    rw [min_eq_right h2]; exact max_eq_right h1
  have harg : max (-1) (min 1 x) * 32768 = x * 32768 := by rw [hclamp]
  have hfl : ((⌊x * 32768 + 1 / 2⌋ : ℤ) : ℚ) ≤ x * 32768 + 1 / 2 :=
    Int.floor_le _
  have hfu : x * 32768 + 1 / 2 < (⌊x * 32768 + 1 / 2⌋ : ℤ) + 1 :=
    Int.lt_floor_add_one _
  have hlow : (-32768 : ℤ) ≤ ⌊x * 32768 + 1 / 2⌋ := by
    apply Int.le_floor.mpr; push_cast; linarith
  unfold encodeSample jsRound
  rw [harg]
  by_cases hc : ⌊x * 32768 + 1 / 2⌋ ≤ 32767
  · rw [min_eq_right hc, max_eq_right hlow]
    unfold decodeSample
    rw [abs_le]
    constructor <;> linarith [hfl, hfu]
  · push_neg at hc
    have hc' : (32767 : ℤ) ≤ ⌊x * 32768 + 1 / 2⌋ := le_of_lt hc
    rw [min_eq_left hc', max_eq_right (by norm_num : (-32768 : ℤ) ≤ 32767)]
    have hxlow : (32768 : ℚ) ≤ x * 32768 + 1 / 2 := by
      have h32 : (32768 : ℤ) ≤ ⌊x * 32768 + 1 / 2⌋ := hc
      have := Int.le_floor.mp h32
      push_cast at this; linarith
    unfold decodeSample
    rw [abs_le]
    constructor <;> push_cast <;> linarith

/-- C8: For every float sample array with all values in [-1, 1], the
decode-of-encode round trip reproduces each sample within 16-bit quantization
error (at most 1/32768 per sample; `Forall₂` also forces the decoded array to
have the same length, i.e. samplewise correspondence).  Encoding clamps to
[-1, 1], scales by 32768, rounds, and clamps to the signed-16 range; decoding
divides by 32768. -/
theorem C8_codec_roundTrip (xs : List ℚ) (h : ∀ x ∈ xs, -1 ≤ x ∧ x ≤ 1) :
    List.Forall₂ (fun y x => |y - x| ≤ 1 / 32768)
      (decodeAudioDataMono (createBlobSamples xs)) xs := by
  induction xs with
  | nil => simp [decodeAudioDataMono, createBlobSamples]
  | cons x xs ih =>
    have hx := h x (List.mem_cons_self _ _)
    simp only [decodeAudioDataMono, createBlobSamples, List.map_cons]
    exact List.Forall₂.cons (encodeSample_roundTrip x hx.1 hx.2)
      (ih fun y hy => h y (List.mem_cons_of_mem _ hy))

/-- Witness for C8 at the concrete sample array `[1/3, -1, 1, 1/7]`. -/
theorem C8_codec_roundTrip_witness :
    List.Forall₂ (fun y x => |y - x| ≤ 1 / 32768)
      (decodeAudioDataMono (createBlobSamples [1/3, -1, 1, 1/7]))
      [1/3, -1, 1, 1/7] :=
  C8_codec_roundTrip [1/3, -1, 1, 1/7]
    (by intro x hx; fin_cases hx <;> constructor <;> norm_num)

/-! ## Playback scheduler lemmas -/

/-- Bridge: the starts of `schedStarts` are `schedStartsList` of the cursor. -/
theorem schedStarts_eq_list (rest : List (ℚ × ℚ)) :
    ∀ st : Sched, (schedStarts st rest).2 =
      schedStartsList st.nextStartTime rest := by
  induction rest with
  | nil => intro st; rfl
  | cons p r ih =>
    intro st
    obtain ⟨t, d⟩ := p
    simp only [schedStarts, scheduleChunk, schedStartsList]
    exact congrArg (List.cons _) (ih _)

/-- If every remaining arrival time is below a bound the cursor has already
reached, each buffer is scheduled exactly at the cursor and the starts form
the gapless chain. -/
theorem schedStartsList_saturated (rest : List (ℚ × ℚ)) :
    ∀ (nst B : ℚ), B ≤ nst →
      (∀ p ∈ rest, p.1 ≤ B ∧ 0 ≤ p.2) →
      schedStartsList nst rest = specNoGapStarts nst (rest.map Prod.snd) := by
  induction rest with
  | nil => intro nst B _ _; rfl
  | cons p r ih =>
    intro nst B hB h
    obtain ⟨t, d⟩ := p
    have ht : t ≤ nst := le_trans (h (t, d) (List.mem_cons_self _ _)).1 hB
    have hd : 0 ≤ d := (h (t, d) (List.mem_cons_self _ _)).2
    simp only [schedStartsList, List.map_cons, specNoGapStarts, max_eq_left ht]
    exact congrArg (List.cons _)
      (ih _ B (le_trans hB (by linarith))
        (fun q hq => h q (List.mem_cons_of_mem _ hq)))

/-- C7: (a) For buffers of durations `d1, d2, …` that all arrive before the
first buffer finishes playing (arrival times at most `start(1) + d1`), the
assigned start times form exactly the gapless chain
`start(n+1) = start(n) + d(n)` beginning at `start(1) = max(cursor, t1)`.
(b) An interruption stops and clears every live source and resets the cursor,
so the next buffer scheduled after it starts at the clock's current time. -/
theorem C7_scheduler :
    (∀ (st : Sched) (t1 d1 : ℚ) (rest : List (ℚ × ℚ)),
      0 ≤ d1 →
      (∀ p ∈ rest, p.1 ≤ max st.nextStartTime t1 + d1 ∧ 0 ≤ p.2) →
      (schedStarts st ((t1, d1) :: rest)).2 =
        specNoGapStarts (max st.nextStartTime t1) (d1 :: rest.map Prod.snd)) ∧
    (∀ (st : Sched) (now d : ℚ), 0 ≤ now →
      (interruptSched st).live = [] ∧
      (interruptSched st).stopped = st.stopped ++ st.live ∧
      (scheduleChunk (interruptSched st) now d).2 = now) := by
  constructor
  · intro st t1 d1 rest _hd1 h
    rw [schedStarts_eq_list]
    simp only [schedStartsList, List.map_cons, specNoGapStarts]
    exact congrArg (List.cons _)
      (schedStartsList_saturated rest _ _ (le_refl _) h)
  · intro st now d hnow
    refine ⟨rfl, rfl, ?_⟩
    simp only [scheduleChunk, interruptSched]
    exact max_eq_right hnow

/-- Witness for C7 at a concrete state and chunk sequence. -/
theorem C7_scheduler_witness :
    (schedStarts { nextStartTime := 0 } ((0, 2) :: [(1, 3), (2, 1)])).2 =
      specNoGapStarts (max (0 : ℚ) 0) (2 :: [((1:ℚ), (3:ℚ)), (2, 1)].map Prod.snd) ∧
    (interruptSched { nextStartTime := 9, live := [0, 1, 2] }).live = [] ∧
    (scheduleChunk (interruptSched { nextStartTime := 9, live := [0, 1, 2] })
      5 1).2 = 5 := by
  refine ⟨C7_scheduler.1 { nextStartTime := 0 } 0 2 [(1, 3), (2, 1)]
    (by norm_num) (by intro p hp; fin_cases hp <;> constructor <;> norm_num),
    ?_, ?_⟩
  · exact (C7_scheduler.2 { nextStartTime := 9, live := [0, 1, 2] } 5 1
      (by norm_num)).1
  · exact (C7_scheduler.2 { nextStartTime := 9, live := [0, 1, 2] } 5 1
      (by norm_num)).2.2

/-! ## Sanitization lemmas -/

theorem okAux_false_of_true : ∀ l : List Char, okAux true l = true → okAux false l = true := by
  intro l h
  cases l with
  | nil => rfl
  | cons c r =>
    by_cases hc : isJsWs c
    · simp [okAux, hc] at h
    · simpa [okAux, hc] using h

theorem okAux_collapse : ∀ (l : List Char) (b : Bool), okAux b (collapseWsAux b l) = true := by
  intro l
  induction l with
  | nil => intro b; rfl
  | cons c r ih =>
    intro b
    by_cases hc : isJsWs c
    · cases b with
      | true => simpa [collapseWsAux, hc] using ih true
      | false =>
        simp only [collapseWsAux, hc, if_true, if_false, Bool.false_eq_true]
        simp [okAux, isJsWs, ih true]
    · simp only [collapseWsAux, hc, if_false, Bool.false_eq_true]
      simp [okAux, hc, ih false]

theorem collapse_of_okAux : ∀ (l : List Char) (b : Bool), okAux b l = true → collapseWsAux b l = l := by
  intro l
  induction l with
  | nil => intro b _; rfl
  | cons c r ih =>
    intro b h
    by_cases hc : isJsWs c
    · simp only [okAux, hc, if_true, Bool.and_eq_true, Bool.not_eq_true'] at h
      obtain ⟨⟨hb, hsp⟩, hr⟩ := h
      subst hb
      have hc' : c = ' ' := by simpa using hsp
      subst hc'
      simp [collapseWsAux, hc, ih true hr]
    · simp only [okAux, hc, if_false, Bool.false_eq_true] at h
      simp [collapseWsAux, hc, ih false h]

theorem trimLeft_okAux : ∀ l : List Char, okAux false l = true → okAux false (jsTrimLeft l) = true := by
  intro l h
  cases l with
  | nil => rfl
  | cons c r =>
    by_cases hc : isJsWs c
    · simp only [okAux, hc, if_true, Bool.and_eq_true] at h
      have hr : okAux true r = true := h.2
      simp only [jsTrimLeft, List.dropWhile_cons, hc, if_true]
      cases r with
      | nil => rfl
      | cons d r2 =>
        by_cases hd : isJsWs d
        · simp [okAux, hd] at hr
        · simpa [List.dropWhile_cons, hd, okAux] using hr
    · simpa [jsTrimLeft, List.dropWhile_cons, hc, okAux] using h

theorem jsTrimRight_cons (c : Char) (r : List Char) :
    jsTrimRight (c :: r) =
      (match jsTrimRight r with
       | [] => if isJsWs c then [] else [c]
       | l2 => c :: l2) := rfl

theorem trimRight_okAux : ∀ (l : List Char) (b : Bool), okAux b l = true → okAux b (jsTrimRight l) = true := by
  intro l
  induction l with
  | nil => intro b _; rfl
  | cons c r ih =>
    intro b h
    by_cases hc : isJsWs c
    · simp only [okAux, hc, if_true, Bool.and_eq_true, Bool.not_eq_true'] at h
      obtain ⟨⟨hb, hsp⟩, hr⟩ := h
      subst hb
      have h2 := ih true hr
      rw [jsTrimRight_cons]
      cases htr : jsTrimRight r with
      | nil => simp [hc, okAux]
      | cons d r2 =>
        rw [htr] at h2
        simpa [okAux, hc, hsp] using h2
    · simp only [okAux, hc, if_false, Bool.false_eq_true] at h
      have h2 := ih false h
      rw [jsTrimRight_cons]
      cases htr : jsTrimRight r with
      | nil => simp [hc, okAux]
      | cons d r2 =>
        rw [htr] at h2
        simpa [okAux, hc] using h2

theorem trimRight_idem : ∀ l : List Char, jsTrimRight (jsTrimRight l) = jsTrimRight l := by
  intro l
  induction l with
  | nil => rfl
  | cons c r ih =>
    cases htr : jsTrimRight r with
    | nil =>
      by_cases hc : isJsWs c
      · simp [jsTrimRight_cons, htr, hc, jsTrimRight]
      · simp [jsTrimRight_cons, htr, hc, jsTrimRight]
    | cons d r2 =>
      rw [htr] at ih
      have houter : jsTrimRight (c :: r) = c :: d :: r2 := by
        rw [jsTrimRight_cons, htr]
      rw [houter, jsTrimRight_cons, ih]

theorem headOk_trimLeft : ∀ l : List Char, headOk (jsTrimLeft l) = true := by
  intro l
  induction l with
  | nil => rfl
  | cons c r ih =>
    by_cases hc : isJsWs c
    · simpa [jsTrimLeft, List.dropWhile_cons, hc] using ih
    · simp [jsTrimLeft, List.dropWhile_cons, hc, headOk]

theorem headOk_trimRight : ∀ l : List Char, headOk l = true → headOk (jsTrimRight l) = true := by
  intro l h
  cases l with
  | nil => rfl
  | cons c r =>
    simp only [headOk] at h
    rw [jsTrimRight_cons]
    cases jsTrimRight r with
    | nil =>
      by_cases hc : isJsWs c
      · simp at h; simp [h] at hc
      · simp [hc, headOk]
    | cons d r2 => simpa [headOk] using h

theorem trimLeft_of_headOk : ∀ l : List Char, headOk l = true → jsTrimLeft l = l := by
  intro l h
  cases l with
  | nil => rfl
  | cons c r =>
    simp only [headOk, Bool.not_eq_true'] at h
    simp [jsTrimLeft, List.dropWhile_cons, h]

/-- Canonicalization `jsTrim ∘ collapse` is idempotent. -/
theorem jsTrim_collapse_idem (l : List Char) :
    jsTrim (collapseWsAux false (jsTrim (collapseWsAux false l))) =
      jsTrim (collapseWsAux false l) := by
  have hok : okAux false (jsTrim (collapseWsAux false l)) = true := by
    unfold jsTrim
    exact trimRight_okAux _ _ (trimLeft_okAux _ (okAux_collapse l false))
  have hhead : headOk (jsTrim (collapseWsAux false l)) = true := by
    unfold jsTrim
    exact headOk_trimRight _ (headOk_trimLeft _)
  rw [collapse_of_okAux _ _ hok]
  show jsTrimRight (jsTrimLeft (jsTrim (collapseWsAux false l))) = _
  rw [trimLeft_of_headOk _ hhead]
  show jsTrimRight (jsTrimRight (jsTrimLeft (collapseWsAux false l))) = _
  rw [trimRight_idem]
  rfl

theorem mem_collapse : ∀ (l : List Char) (b : Bool) (c : Char),
    c ∈ collapseWsAux b l → c = ' ' ∨ c ∈ l := by
  intro l
  induction l with
  | nil => intro b c h; simp [collapseWsAux] at h
  | cons d r ih =>
    intro b c h
    by_cases hd : isJsWs d
    · cases b with
      | true =>
        simp [collapseWsAux, hd] at h
        rcases ih true c h with h1 | h1
        · exact Or.inl h1
        · exact Or.inr (List.mem_cons_of_mem _ h1)
      | false =>
        simp [collapseWsAux, hd] at h
        rcases h with h1 | h1
        · exact Or.inl h1
        · rcases ih true c h1 with h2 | h2
          · exact Or.inl h2
          · exact Or.inr (List.mem_cons_of_mem _ h2)
    · simp [collapseWsAux, hd] at h
      rcases h with h1 | h1
      · exact Or.inr (h1 ▸ List.mem_cons_self _ _)
      · rcases ih false c h1 with h2 | h2
        · exact Or.inl h2
        · exact Or.inr (List.mem_cons_of_mem _ h2)

theorem trimRight_sublist : ∀ l : List Char, (jsTrimRight l).Sublist l := by
  intro l
  induction l with
  | nil => exact List.Sublist.refl _
  | cons c r ih =>
    rw [jsTrimRight_cons]
    cases htr : jsTrimRight r with
    | nil =>
      by_cases hc : isJsWs c
      · simp [hc]
      · simp only [hc, if_false, Bool.false_eq_true]
        exact (List.nil_sublist r).cons₂ c
    | cons d r2 =>
      rw [htr] at ih
      exact ih.cons₂ c

theorem mem_jsTrim (l : List Char) (c : Char) (h : c ∈ jsTrim l) : c ∈ l := by
  unfold jsTrim at h
  have h1 := (trimRight_sublist (jsTrimLeft l)).subset h
  exact (List.dropWhile_sublist _).subset h1

theorem collapse_length (l : List Char) :
    ∀ b : Bool, (collapseWsAux b l).length ≤ l.length := by
  induction l with
  | nil => intro b; simp [collapseWsAux]
  | cons c r ih =>
    intro b
    by_cases hc : isJsWs c
    · cases b with
      | true =>
        simp only [collapseWsAux, hc, if_true]
        exact le_trans (ih true) (Nat.le_succ _)
      | false =>
        simp only [collapseWsAux, hc, if_true, List.length_cons]
        exact Nat.succ_le_succ (ih true)
    · simp only [collapseWsAux, hc, if_false, Bool.false_eq_true, List.length_cons]
      exact Nat.succ_le_succ (ih false)

theorem jsTrim_length (l : List Char) : (jsTrim l).length ≤ l.length := by
  unfold jsTrim
  exact le_trans (trimRight_sublist _).length_le (List.dropWhile_sublist _).length_le

theorem noCtl_sanitizeList (l : List Char) :
    ∀ c ∈ sanitizeList l, isCtl c = false := by
  intro c hc
  unfold sanitizeList at hc
  have h1 := List.take_subset _ _ hc
  have h2 := List.of_mem_filter h1
  simpa using h2

theorem sanitizeList_length (l : List Char) :
    (sanitizeList l).length ≤ CONTEXT_MAX_LENGTH := by
  unfold sanitizeList
  exact List.length_take_le _ _

theorem filter_noCtl_eq_self (l : List Char) (h : ∀ c ∈ l, isCtl c = false) :
    l.filter (fun c => !(isCtl c)) = l := by
  apply List.filter_eq_self.mpr
  intro a ha
  simp [h a ha]

theorem take_of_le_100 (l : List Char) (h : l.length ≤ CONTEXT_MAX_LENGTH) :
    l.take CONTEXT_MAX_LENGTH = l :=
  List.take_of_length_le h

theorem noCtl_collapse (l : List Char) (h : ∀ c ∈ l, isCtl c = false) :
    ∀ b, ∀ c ∈ collapseWsAux b l, isCtl c = false := by
  intro b c hc
  rcases mem_collapse l b c hc with h1 | h1
  · subst h1; decide
  · exact h c h1

theorem noCtl_jsTrim (l : List Char) (h : ∀ c ∈ l, isCtl c = false) :
    ∀ c ∈ jsTrim l, isCtl c = false :=
  fun c hc => h c (mem_jsTrim l c hc)

/-- Applying `sanitizeList` to an output of `sanitizeList` is just
canonicalization (`jsTrim ∘ collapse`): the filter and the truncation are
no-ops there. -/
theorem sanitizeList_sanitizeList (l : List Char) :
    sanitizeList (sanitizeList l) =
      jsTrim (collapseWsAux false (sanitizeList l)) := by
  have hctl : ∀ c ∈ sanitizeList l, isCtl c = false := noCtl_sanitizeList l
  have hctl2 : ∀ c ∈ jsTrim (collapseWsAux false (sanitizeList l)), isCtl c = false :=
    noCtl_jsTrim _ (fun c hc => noCtl_collapse _ hctl false c hc)
  have hlen : (jsTrim (collapseWsAux false (sanitizeList l))).length ≤
      CONTEXT_MAX_LENGTH :=
    le_trans (jsTrim_length _) (le_trans (collapse_length _ false) (sanitizeList_length l))
  conv =>
    left
    rw [sanitizeList]
  rw [filter_noCtl_eq_self _ hctl2, take_of_le_100 _ hlen]

/-- Sanitizing twice reaches a fixed point of `sanitizeList`. -/
theorem sanitizeList_idem_twice (l : List Char) :
    sanitizeList (sanitizeList (sanitizeList l)) =
      sanitizeList (sanitizeList l) := by
  rw [sanitizeList_sanitizeList (sanitizeList l),
      sanitizeList_sanitizeList l, jsTrim_collapse_idem]

theorem collapse_of_noWs : ∀ (l : List Char) (b : Bool),
    (∀ c ∈ l, isJsWs c = false) → collapseWsAux b l = l := by
  intro l
  induction l with
  | nil => intro b _; rfl
  | cons c r ih =>
    intro b h
    have hc : isJsWs c = false := h c (List.mem_cons_self _ _)
    simp [collapseWsAux, hc, ih false (fun d hd => h d (List.mem_cons_of_mem _ hd))]

theorem trimRight_of_noWs : ∀ l : List Char,
    (∀ c ∈ l, isJsWs c = false) → jsTrimRight l = l := by
  intro l
  induction l with
  | nil => intro _; rfl
  | cons c r ih =>
    intro h
    have hc : isJsWs c = false := h c (List.mem_cons_self _ _)
    rw [jsTrimRight_cons, ih (fun d hd => h d (List.mem_cons_of_mem _ hd))]
    cases r with
    | nil => simp [hc]
    | cons d r2 => rfl

theorem trimLeft_of_noWs (l : List Char) (h : ∀ c ∈ l, isJsWs c = false) :
    jsTrimLeft l = l := by
  cases l with
  | nil => rfl
  | cons c r =>
    simp [jsTrimLeft, List.dropWhile_cons, h c (List.mem_cons_self _ _)]

theorem sanitizeList_ctlOnly (l : List Char)
    (h : ∀ c ∈ l, isCtl c = true ∧ isJsWs c = false) :
    sanitizeList l = [] := by
  unfold sanitizeList jsTrim
  rw [collapse_of_noWs l false (fun c hc => (h c hc).2),
      trimLeft_of_noWs l (fun c hc => (h c hc).2),
      trimRight_of_noWs l (fun c hc => (h c hc).2)]
  rw [List.filter_eq_nil_iff.mpr]
  · rfl
  · intro c hc
    simp [(h c hc).1]


theorem validate_rejects_of_empty (lang s : String)
    (h : sanitizeContext s = "") : (validateLiveInit lang s).isOk = false := by
  simp only [validateLiveInit, h]
  split <;> rfl

/-- C9 counterexample: context sanitization is not idempotent, and a string of
only control characters need not sanitize to the empty string (so it is not
always rejected).  Concretely, `"a \x00 b"` sanitizes to `"a  b"` (stripping
the control character merges two single-space runs into a double space, which
a second pass would collapse), and the control-only string `"\x00\x09\x01"`
sanitizes to a single space (the tab becomes a space that survives both the
trim and the control filter), which is non-empty and therefore accepted by
`validateLiveInit` with a valid language — refuting both conjuncts of the
claim. -/
theorem C9_sanitize_counterexample :
    sanitizeContext (sanitizeContext "a \x00 b") ≠ sanitizeContext "a \x00 b" ∧
    sanitizeContext "\x00\x09\x01" ≠ "" ∧
    (validateLiveInit "Spanish" "\x00\x09\x01").isOk = true := by
  refine ⟨by decide, by decide, by decide⟩

/-- C9 amended: (a) sanitization is idempotent from the second application on
(`sanitize ∘ sanitize` is a projection: a third application changes nothing),
though a single application need not be a fixed point; (b) a string consisting
only of control characters that are not whitespace sanitizes to the empty
string and is therefore rejected by init validation for every language. -/
theorem C9_sanitize_amended :
    (∀ s : String,
      sanitizeContext (sanitizeContext (sanitizeContext s)) =
        sanitizeContext (sanitizeContext s)) ∧
    (∀ s : String, (∀ c ∈ s.data, isCtl c = true ∧ isJsWs c = false) →
      sanitizeContext s = "" ∧
      ∀ lang : String, (validateLiveInit lang s).isOk = false) := by
  constructor
  · intro s
    show (⟨sanitizeList (sanitizeContext (sanitizeContext s)).data⟩ : String) = _
    show (⟨sanitizeList (sanitizeList (sanitizeContext s).data)⟩ : String) = _
    show (⟨sanitizeList (sanitizeList (sanitizeList s.data))⟩ : String) = _
    rw [sanitizeList_idem_twice]
    rfl
  · intro s h
    have hempty : sanitizeContext s = "" := by
      show (⟨sanitizeList s.data⟩ : String) = ""
      rw [sanitizeList_ctlOnly s.data h]
    exact ⟨hempty, fun lang => validate_rejects_of_empty lang s hempty⟩

/-- Witness for C9 amended at a concrete string with control characters. -/
theorem C9_sanitize_amended_witness :
    sanitizeContext (sanitizeContext (sanitizeContext "a \x00 b")) =
      sanitizeContext (sanitizeContext "a \x00 b") ∧
    sanitizeContext "\x00\x01" = "" ∧
    (validateLiveInit "Spanish" "\x00\x01").isOk = false :=
  ⟨C9_sanitize_amended.1 "a \x00 b",
   (C9_sanitize_amended.2 "\x00\x01" (by decide)).1,
   (C9_sanitize_amended.2 "\x00\x01" (by decide)).2 "Spanish"⟩

/-! ## Gateway lemmas -/

/-- The entry returned by `checkLiveRateLimit` is the old entry with its
timestamps pruned to the trailing hour; the count is untouched. -/
theorem checkLiveRateLimit_fst (r : Option RLEntry) (now : Int) :
    (checkLiveRateLimit r now).1 =
      ⟨rlCount r, (rlTimes r).filter (fun t => now - 60 * 60 * 1000 < t)⟩ := by
  cases r <;> simp only [checkLiveRateLimit, rlCount, rlTimes, Option.getD] <;>
    split_ifs <;> rfl

/-- `sendEv` only appends to the sent log. -/
theorem sendEv_spec (c : Conn) (e : SEvent) :
    (sendEv c e).initDone = c.initDone ∧
    (sendEv c e).connectCount = c.connectCount ∧
    (sendEv c e).opened = c.opened ∧
    (sendEv c e).resolvedDone = c.resolvedDone ∧
    (sendEv c e).failedDone = c.failedDone ∧
    (sendEv c e).sessionSet = c.sessionSet ∧
    (sendEv c e).timerDeadline = c.timerDeadline ∧
    (sendEv c e).pending = c.pending ∧
    (sendEv c e).upLog = c.upLog ∧
    (sendEv c e).closed = c.closed := by
  unfold sendEv
  split <;> simp

/-- Handling a client message never touches the session handle, the socket
state, the timer, the handshake flags, or the stored concurrent count, and it
either leaves the IP's timestamps unchanged or prunes them to the trailing
hour. -/
theorem onClientMsg_spec (now : Int) (c : Conn) (r : Option RLEntry) (m : CMsg) :
    (onClientMsg now c r m).1.sessionSet = c.sessionSet ∧
    (onClientMsg now c r m).1.closed = c.closed ∧
    (onClientMsg now c r m).1.timerDeadline = c.timerDeadline ∧
    (onClientMsg now c r m).1.opened = c.opened ∧
    (onClientMsg now c r m).1.resolvedDone = c.resolvedDone ∧
    rlCount (onClientMsg now c r m).2 = rlCount r ∧
    (rlTimes (onClientMsg now c r m).2 = rlTimes r ∨
     rlTimes (onClientMsg now c r m).2 =
       (rlTimes r).filter (fun t => now - 60 * 60 * 1000 < t)) := by
  have hck := checkLiveRateLimit_fst r now
  cases m with
  | init lang ctx md =>
    simp only [onClientMsg]
    split
    · exact ⟨rfl, rfl, rfl, rfl, rfl, rfl, Or.inl rfl⟩
    · split
      · obtain ⟨h1, h2, h3, h4, h5, h6, h7, h8, h9, h10⟩ :=
          sendEv_spec c (.errorEv "init requires language and context")
        exact ⟨h6, h10, h7, h3, h4, rfl, Or.inl rfl⟩
      · split
        · obtain ⟨h1, h2, h3, h4, h5, h6, h7, h8, h9, h10⟩ :=
            sendEv_spec c (.errorEv (checkLiveRateLimit r now).2.2)
          refine ⟨h6, h10, h7, h3, h4, ?_, Or.inr ?_⟩
          · rw [hck]; rfl
          · rw [hck]; rfl
        · split
          · obtain ⟨h1, h2, h3, h4, h5, h6, h7, h8, h9, h10⟩ :=
              sendEv_spec c (.errorEv _)
            refine ⟨h6, h10, h7, h3, h4, ?_, Or.inr ?_⟩
            · rw [hck]; rfl
            · rw [hck]; rfl
          · refine ⟨rfl, rfl, rfl, rfl, rfl, ?_, Or.inr ?_⟩
            · rw [hck]; rfl
            · rw [hck]; rfl
  | realtime audio =>
    cases audio with
    | none => exact ⟨rfl, rfl, rfl, rfl, rfl, rfl, Or.inl rfl⟩
    | some a =>
      simp only [onClientMsg]
      split <;> exact ⟨rfl, rfl, rfl, rfl, rfl, rfl, Or.inl rfl⟩
  | content turns tc =>
    cases turns with
    | none => exact ⟨rfl, rfl, rfl, rfl, rfl, rfl, Or.inl rfl⟩
    | some ts =>
      simp only [onClientMsg]
      split <;> exact ⟨rfl, rfl, rfl, rfl, rfl, rfl, Or.inl rfl⟩
  | other => exact ⟨rfl, rfl, rfl, rfl, rfl, rfl, Or.inl rfl⟩

/-- A queueable message (`realtime` with audio or `content` with turns)
arriving while no upstream handle exists is appended to the pending queue and
nothing else changes: no upstream call, no client event, no rate-state
change. -/
theorem onClientMsg_queue (now : Int) (c : Conn) (r : Option RLEntry)
    (m : CMsg) (hs : c.sessionSet = false) (hm : (msgToCall m).isSome) :
    onClientMsg now c r m = ({ c with pending := c.pending ++ [m] }, r) := by
  cases m with
  | init lang ctx md => simp [msgToCall] at hm
  | realtime audio =>
    cases audio with
    | none => simp [msgToCall] at hm
    | some a => simp [onClientMsg, hs]
  | content turns tc =>
    cases turns with
    | none => simp [msgToCall] at hm
    | some ts => simp [onClientMsg, hs]
  | other => simp [msgToCall] at hm

/-- Running a block of queueable client messages while no upstream handle
exists appends exactly those messages to the pending queue, in arrival order,
and changes nothing else. -/
theorem runGw_queue (msgs : List (Int × CMsg)) :
    ∀ (c : Conn) (r : Option RLEntry), c.sessionSet = false →
      (∀ p ∈ msgs, (msgToCall p.2).isSome) →
      runGw (c, r) (msgs.map (fun p => (⟨p.1, .clientMsg p.2⟩ : TEv))) =
        ({ c with pending := c.pending ++ msgs.map Prod.snd }, r) := by
  induction msgs with
  | nil => intro c r _ _; simp [runGw]
  | cons p rest ih =>
    intro c r hs hq
    obtain ⟨t, m⟩ := p
    have hm : (msgToCall m).isSome := hq (t, m) (List.mem_cons_self _ _)
    have hstep : stepT (c, r) ⟨t, .clientMsg m⟩ =
        ({ c with pending := c.pending ++ [m] }, r) := by
      simpa [stepT] using onClientMsg_queue t c r m hs hm
    simp only [List.map_cons, runGw, List.foldl_cons]
    rw [hstep]
    have h2 := ih { c with pending := c.pending ++ [m] } r hs
      (fun q hq2 => hq q (List.mem_cons_of_mem _ hq2))
    simp only [runGw] at h2
    rw [h2]
    simp

/-- `filterMap msgToCall` is length-preserving on queueable messages. -/
theorem filterMap_msgToCall_length (l : List CMsg)
    (h : ∀ m ∈ l, (msgToCall m).isSome) :
    (l.filterMap msgToCall).length = l.length := by
  induction l with
  | nil => rfl
  | cons m rest ih =>
    have hm := h m (List.mem_cons_self _ _)
    obtain ⟨u, hu⟩ := Option.isSome_iff_exists.mp hm
    simp [List.filterMap_cons, hu,
      ih (fun q hq => h q (List.mem_cons_of_mem _ hq))]

/-- An `init` with an allow-listed language and a context that survives
sanitization, arriving on a fresh connection, is accepted: `initDone` is set,
one upstream connect is issued, the IP entry is created, and nothing is sent
to the client. -/
theorem init_accepted (t0 : Int) (lang ctx : String) (md : Option String)
    (hLang : ALLOWED_LANGUAGES.contains (jsTrimStr lang) = true)
    (hCtx : sanitizeContext ctx ≠ "") :
    onClientMsg t0 initConn none (.init (some lang) (some ctx) md) =
      ({ initConn with initDone := true, connectCount := 1 },
       some ⟨0, []⟩) := by
  have hlangne : (lang = "") = False := by
    by_contra hne
    simp only [eq_iff_iff, iff_false] at hne
    push_neg at hne
    subst hne
    revert hLang
    decide
  have hctxne : (ctx = "") = False := by
    by_contra hne
    simp only [eq_iff_iff, iff_false] at hne
    push_neg at hne
    subst hne
    exact hCtx rfl
  have hval : validateLiveInit lang ctx = .ok (jsTrimStr lang) (sanitizeContext ctx) := by
    unfold validateLiveInit
    rw [if_pos hLang, if_neg hCtx]
  simp only [onClientMsg, initConn, Option.getD_some]
  rw [if_neg (by simp [initConn]), if_neg (by simp [hlangne, hctxne])]
  simp only [checkLiveRateLimit, Option.getD_none]
  norm_num [MAX_CONCURRENT_SESSIONS_PER_IP, MAX_SESSIONS_PER_IP_PER_HOUR, hval]

/-- C1: On a fresh connection, an accepted `init` followed by N queueable
`realtime`/`content` messages delivered before the upstream handshake resolves
leaves all N messages in the pending queue in arrival order with nothing
relayed; `onopen` (the upstream open) still relays nothing; and when the
connect promise resolves, the queue is flushed FIFO: the upstream log becomes
exactly the translation of the N messages in their original order (exactly N
calls, none dropped, none reordered) and the queue empties. -/
theorem C1_queue_then_flush (t0 topen tres : Int) (lang ctx : String)
    (md : Option String)
    (hLang : ALLOWED_LANGUAGES.contains (jsTrimStr lang) = true)
    (hCtx : sanitizeContext ctx ≠ "")
    (msgs : List (Int × CMsg))
    (hq : ∀ p ∈ msgs, (msgToCall p.2).isSome) :
    let s1 := runGw (initConn, none)
      (⟨t0, .clientMsg (.init (some lang) (some ctx) md)⟩ ::
        msgs.map (fun p => (⟨p.1, .clientMsg p.2⟩ : TEv)));
    let s2 := stepT s1 ⟨topen, .upstreamOpen⟩;
    let s3 := stepT s2 ⟨tres, .upstreamResolve⟩;
    (s1.1.pending = msgs.map Prod.snd ∧ s1.1.upLog = [] ∧
      s1.1.sessionSet = false) ∧
    (s2.1.pending = msgs.map Prod.snd ∧ s2.1.upLog = []) ∧
    (s3.1.pending = [] ∧
      s3.1.upLog = (msgs.map Prod.snd).filterMap msgToCall ∧
      ((msgs.map Prod.snd).filterMap msgToCall).length = msgs.length) := by
  intro s1 s2 s3
  have hstep0 : stepT (initConn, none)
      ⟨t0, .clientMsg (.init (some lang) (some ctx) md)⟩ =
      ({ initConn with initDone := true, connectCount := 1 }, some ⟨0, []⟩) := by
    simpa [stepT] using init_accepted t0 lang ctx md hLang hCtx
  have h1 : s1 =
      ({ initConn with
          initDone := true
          connectCount := 1
          pending := msgs.map Prod.snd }, some ⟨0, []⟩) := by
    show runGw (initConn, none) _ = _
    simp only [runGw, List.foldl_cons]
    rw [hstep0]
    have h2 := runGw_queue msgs
      { initConn with initDone := true, connectCount := 1 } (some ⟨0, []⟩)
      rfl hq
    simpa [runGw] using h2
  have h2 : s2 =
      ({ initConn with
          initDone := true
          connectCount := 1
          pending := msgs.map Prod.snd
          opened := true
          timerDeadline := some (topen + SESSION_MAX_DURATION_MS)
          sent := [.openEv] }, some ⟨1, [topen]⟩) := by
    show stepT s1 _ = _
    rw [h1]
    simp [stepT, onUpstreamOpen, sendEv, recordSessionStart, initConn]
  have h3 : s3 =
      ({ initConn with
          initDone := true
          connectCount := 1
          pending := []
          upLog := (msgs.map Prod.snd).filterMap msgToCall
          opened := true
          resolvedDone := true
          sessionSet := true
          timerDeadline := some (topen + SESSION_MAX_DURATION_MS)
          sent := [.openEv] }, some ⟨1, [topen]⟩) := by
    show stepT s2 _ = _
    rw [h2]
    simp [stepT, onUpstreamResolve, initConn]
  refine ⟨⟨?_, ?_, ?_⟩, ⟨?_, ?_⟩, ⟨?_, ?_, ?_⟩⟩
  · simp [h1, initConn]
  · simp [h1, initConn]
  · simp [h1, initConn]
  · simp [h2, initConn]
  · simp [h2, initConn]
  · simp [h3, initConn]
  · simp [h3, initConn]
  · have hlen := filterMap_msgToCall_length (msgs.map Prod.snd) (by
      intro m hm
      obtain ⟨p, hp, hpe⟩ := List.mem_map.mp hm
      exact hpe ▸ hq p hp)
    simpa using hlen

/-- Witness for C1 at a concrete accepted init and two queued messages. -/
theorem C1_queue_then_flush_witness :
    let s1 := runGw (initConn, none)
      (⟨0, .clientMsg (.init (some "Spanish") (some "gato") none)⟩ ::
        [((1 : Int), CMsg.realtime (some ⟨"AAAA", "audio/pcm;rate=16000"⟩)),
         ((2 : Int), CMsg.content (some [⟨"user", [⟨"hi"⟩]⟩]) none)].map
          (fun p => (⟨p.1, .clientMsg p.2⟩ : TEv)));
    let s2 := stepT s1 ⟨3, .upstreamOpen⟩;
    let s3 := stepT s2 ⟨3, .upstreamResolve⟩;
    (s1.1.pending =
        [CMsg.realtime (some ⟨"AAAA", "audio/pcm;rate=16000"⟩),
         CMsg.content (some [⟨"user", [⟨"hi"⟩]⟩]) none] ∧
      s1.1.upLog = [] ∧ s1.1.sessionSet = false) ∧
    (s2.1.pending =
        [CMsg.realtime (some ⟨"AAAA", "audio/pcm;rate=16000"⟩),
         CMsg.content (some [⟨"user", [⟨"hi"⟩]⟩]) none] ∧
      s2.1.upLog = []) ∧
    (s3.1.pending = [] ∧
      s3.1.upLog =
        ([CMsg.realtime (some ⟨"AAAA", "audio/pcm;rate=16000"⟩),
          CMsg.content (some [⟨"user", [⟨"hi"⟩]⟩]) none]).filterMap msgToCall ∧
      (([CMsg.realtime (some ⟨"AAAA", "audio/pcm;rate=16000"⟩),
          CMsg.content (some [⟨"user", [⟨"hi"⟩]⟩]) none]).filterMap
          msgToCall).length = 2) :=
  C1_queue_then_flush 0 3 3 "Spanish" "gato" none (by decide) (by decide)
    [(1, .realtime (some ⟨"AAAA", "audio/pcm;rate=16000"⟩)),
     (2, .content (some [⟨"user", [⟨"hi"⟩]⟩]) none)] (by decide)

/-- Each step either preserves `connectCount` and `initDone`, or (an accepted
`init` on a connection with `initDone = false`) increments the count once and
sets `initDone`. -/
theorem stepT_connect (s : Conn × Option RLEntry) (te : TEv) :
    ((stepT s te).1.connectCount = s.1.connectCount ∧
     (stepT s te).1.initDone = s.1.initDone) ∨
    (s.1.initDone = false ∧
     (stepT s te).1.connectCount = s.1.connectCount + 1 ∧
     (stepT s te).1.initDone = true) := by
  obtain ⟨c, r⟩ := s
  obtain ⟨t, e⟩ := te
  cases e with
  | clientMsg m =>
    cases m with
    | init lang ctx md =>
      simp only [stepT, onClientMsg]
      split
      · exact Or.inl ⟨rfl, rfl⟩
      · rename_i hnd
        split
        · obtain ⟨_, h2, _, _, _, _, _, _, _, _⟩ := sendEv_spec c
            (.errorEv "init requires language and context")
          exact Or.inl ⟨h2, (sendEv_spec c _).1⟩
        · split
          · exact Or.inl ⟨(sendEv_spec c _).2.1, (sendEv_spec c _).1⟩
          · split
            · exact Or.inl ⟨(sendEv_spec c _).2.1, (sendEv_spec c _).1⟩
            · exact Or.inr ⟨by simpa using hnd, rfl, rfl⟩
    | realtime audio =>
      cases audio with
      | none => exact Or.inl ⟨rfl, rfl⟩
      | some a =>
        simp only [stepT, onClientMsg]
        split <;> exact Or.inl ⟨rfl, rfl⟩
    | content turns tc =>
      cases turns with
      | none => exact Or.inl ⟨rfl, rfl⟩
      | some ts =>
        simp only [stepT, onClientMsg]
        split <;> exact Or.inl ⟨rfl, rfl⟩
    | other => exact Or.inl ⟨rfl, rfl⟩
  | upstreamOpen =>
    exact Or.inl ⟨(sendEv_spec _ _).2.1, (sendEv_spec _ _).1⟩
  | upstreamResolve => exact Or.inl ⟨rfl, rfl⟩
  | upstreamFail =>
    exact Or.inl ⟨(sendEv_spec _ _).2.1, (sendEv_spec _ _).1⟩
  | upstreamMsg p =>
    exact Or.inl ⟨(sendEv_spec _ _).2.1, (sendEv_spec _ _).1⟩
  | upstreamErr =>
    exact Or.inl ⟨(sendEv_spec _ _).2.1, (sendEv_spec _ _).1⟩
  | upstreamClose =>
    exact Or.inl ⟨(sendEv_spec _ _).2.1, (sendEv_spec _ _).1⟩
  | timerFire =>
    simp only [stepT, onTimerFire]
    split <;> exact Or.inl ⟨(sendEv_spec _ _).2.1, (sendEv_spec _ _).1⟩
  | wsClose =>
    simp only [stepT, onWsClose]
    split <;> exact Or.inl ⟨rfl, rfl⟩

/-- At most one upstream connect is ever issued on a connection. -/
theorem runGw_connectCount (es : List TEv) :
    ∀ s : Conn × Option RLEntry, s.1.connectCount ≤ 1 →
      (s.1.initDone = false → s.1.connectCount = 0) →
      ((runGw s es).1.connectCount ≤ 1 ∧
       ((runGw s es).1.initDone = false → (runGw s es).1.connectCount = 0)) := by
  induction es with
  | nil => intro s h1 h2; exact ⟨h1, h2⟩
  | cons te rest ih =>
    intro s h1 h2
    have hs := stepT_connect s te
    show (runGw (stepT s te) rest).1.connectCount ≤ 1 ∧ _
    rcases hs with ⟨hc, hd⟩ | ⟨hd0, hc, hd⟩
    · exact ih (stepT s te) (hc ▸ h1) (fun h => hc ▸ h2 (hd ▸ h))
    · refine ih (stepT s te) ?_ ?_
      · rw [hc, h2 hd0]
      · intro h; rw [h] at hd; simp at hd

/-- C2 counterexample: after an accepted `init`, a second identical `init` on
the same connection is silently ignored (`if (initDone) return;`): no events
at all have been sent to the client (in particular no `error` event answers
the duplicate), refuting the claim that a second `init` is always answered
with an error event.  The upstream connect is still issued only once. -/
theorem C2_second_init_counterexample :
    (runGw (initConn, none)
      [⟨0, .clientMsg (.init (some "Spanish") (some "gato") none)⟩,
       ⟨1, .clientMsg (.init (some "Spanish") (some "gato") none)⟩]).1.sent
      = [] ∧
    (runGw (initConn, none)
      [⟨0, .clientMsg (.init (some "Spanish") (some "gato") none)⟩,
       ⟨1, .clientMsg (.init (some "Spanish") (some "gato") none)⟩]).1.connectCount
      = 1 := by
  constructor <;> rfl

/-- C2 amended: a second `init` never opens a second upstream session — at
most one upstream connect is issued per connection over any event trace — but
a duplicate `init` after a successful one is silently ignored (the handler
returns without sending anything, so no error event answers it), and after a
rejected first `init` (which leaves `initDone = false`) a later `init` is
processed afresh rather than rejected. -/
theorem C2_amended :
    (∀ es : List TEv, (runGw (initConn, none) es).1.connectCount ≤ 1) ∧
    (∀ (now : Int) (c : Conn) (r : Option RLEntry) (lang ctx md : Option String),
      c.initDone = true → onClientMsg now c r (.init lang ctx md) = (c, r)) := by
  constructor
  · intro es
    exact (runGw_connectCount es (initConn, none) (by simp [initConn])
      (fun _ => rfl)).1
  · intro now c r lang ctx md h
    simp [onClientMsg, h]

/-- Witness for C2 amended on the duplicate-init trace and a concrete
`initDone` state. -/
theorem C2_amended_witness :
    (runGw (initConn, none)
      [⟨0, .clientMsg (.init (some "Spanish") (some "gato") none)⟩,
       ⟨1, .clientMsg (.init (some "Spanish") (some "gato") none)⟩]).1.connectCount
      ≤ 1 ∧
    onClientMsg 5 { initConn with initDone := true } none
      (.init (some "Spanish") (some "gato") none) =
      ({ initConn with initDone := true }, none) :=
  ⟨C2_amended.1
    [⟨0, .clientMsg (.init (some "Spanish") (some "gato") none)⟩,
     ⟨1, .clientMsg (.init (some "Spanish") (some "gato") none)⟩],
   C2_amended.2 5 { initConn with initDone := true } none
     (some "Spanish") (some "gato") none rfl⟩

/-- The timer-fire handler always leaves no session handle. -/
theorem onTimerFire_sessionSet (c : Conn) (r : Option RLEntry) :
    (onTimerFire c r).1.sessionSet = false := by
  simp only [onTimerFire]
  rw [(sendEv_spec _ _).2.2.2.2.2.1]
  split
  · rfl
  · rename_i hcond
    simpa using hcond

/-- The client-close handler marks the connection closed. -/
theorem onWsClose_closed (c : Conn) (r : Option RLEntry) :
    (onWsClose c r).1.closed = true := by
  simp only [onWsClose]
  split <;> rfl

/-- One step preserves the invariant "session handle present on an open
connection implies the duration timer is pending", given that a resolve step
only happens while the timer is pending. -/
theorem invC3_step (s : Conn × Option RLEntry) (te : TEv)
    (hprompt : te.ev = Ev.upstreamResolve → s.1.timerDeadline.isSome = true)
    (hinv : s.1.sessionSet = true → s.1.closed = false →
      s.1.timerDeadline.isSome = true) :
    (stepT s te).1.sessionSet = true → (stepT s te).1.closed = false →
      (stepT s te).1.timerDeadline.isSome = true := by
  obtain ⟨c, r⟩ := s
  obtain ⟨t, e⟩ := te
  cases e with
  | clientMsg m =>
    obtain ⟨h1, h2, h3, _, _, _, _⟩ := onClientMsg_spec t c r m
    intro ha hb
    show (onClientMsg t c r m).1.timerDeadline.isSome = true
    rw [h3]
    exact hinv (by rw [← h1]; exact ha) (by rw [← h2]; exact hb)
  | upstreamOpen =>
    intro _ _
    show (sendEv _ _).timerDeadline.isSome = true
    rw [(sendEv_spec _ _).2.2.2.2.2.2.1]
    rfl
  | upstreamResolve =>
    intro _ _
    simpa [stepT, onUpstreamResolve] using hprompt rfl
  | upstreamFail =>
    intro ha hb
    have ha' : (sendEv { c with failedDone := true }
        (.errorEv "Connection failed")).sessionSet = true := ha
    have hb' : (sendEv { c with failedDone := true }
        (.errorEv "Connection failed")).closed = false := hb
    rw [(sendEv_spec _ _).2.2.2.2.2.1] at ha'
    rw [(sendEv_spec _ _).2.2.2.2.2.2.2.2.2] at hb'
    show (sendEv _ _).timerDeadline.isSome = true
    rw [(sendEv_spec _ _).2.2.2.2.2.2.1]
    exact hinv ha' hb' 
  | upstreamMsg p =>
    intro ha hb
    have ha' : (sendEv c (.forwardEv p)).sessionSet = true := ha
    have hb' : (sendEv c (.forwardEv p)).closed = false := hb
    rw [(sendEv_spec _ _).2.2.2.2.2.1] at ha'
    rw [(sendEv_spec _ _).2.2.2.2.2.2.2.2.2] at hb'
    show (sendEv _ _).timerDeadline.isSome = true
    rw [(sendEv_spec _ _).2.2.2.2.2.2.1]
    exact hinv ha' hb' 
  | upstreamErr =>
    intro ha hb
    have ha' : (sendEv c (.errorEv "Connection error")).sessionSet = true := ha
    have hb' : (sendEv c (.errorEv "Connection error")).closed = false := hb
    rw [(sendEv_spec _ _).2.2.2.2.2.1] at ha'
    rw [(sendEv_spec _ _).2.2.2.2.2.2.2.2.2] at hb'
    show (sendEv _ _).timerDeadline.isSome = true
    rw [(sendEv_spec _ _).2.2.2.2.2.2.1]
    exact hinv ha' hb' 
  | upstreamClose =>
    intro ha hb
    have ha' : (sendEv c .closeEv).sessionSet = true := ha
    have hb' : (sendEv c .closeEv).closed = false := hb
    rw [(sendEv_spec _ _).2.2.2.2.2.1] at ha'
    rw [(sendEv_spec _ _).2.2.2.2.2.2.2.2.2] at hb'
    show (sendEv _ _).timerDeadline.isSome = true
    rw [(sendEv_spec _ _).2.2.2.2.2.2.1]
    exact hinv ha' hb' 
  | timerFire =>
    intro ha _
    rw [show (stepT (c, r) ⟨t, .timerFire⟩).1 = (onTimerFire c r).1 from rfl,
      onTimerFire_sessionSet] at ha
    exact absurd ha (by simp)
  | wsClose =>
    intro _ hb
    rw [show (stepT (c, r) ⟨t, .wsClose⟩).1 = (onWsClose c r).1 from rfl,
      onWsClose_closed] at hb
    exact absurd hb (by simp)

/-- The invariant of `invC3_step` holds along any trace satisfying the
prompt-handshake assumption. -/
theorem invC3_run (es : List TEv) :
    ∀ s : Conn × Option RLEntry, promptFrom s es = true →
      (s.1.sessionSet = true → s.1.closed = false →
        s.1.timerDeadline.isSome = true) →
      ((runGw s es).1.sessionSet = true → (runGw s es).1.closed = false →
        (runGw s es).1.timerDeadline.isSome = true) := by
  induction es with
  | nil => intro s _ hinv; exact hinv
  | cons te rest ih =>
    intro s hp hinv
    simp only [promptFrom, Bool.and_eq_true] at hp
    exact ih (stepT s te) hp.2
      (invC3_step s te (of_decide_eq_true hp.1) hinv)

/-- C3: the duration cap.  (1) The ceiling is 8 minutes.  (2) The timer is
started at upstream-open with deadline exactly open-time + ceiling.  (3)–(4)
No client message and no upstream activity changes the deadline (the cap is
independent of activity).  (5) When the timer fires on a live session, the
upstream handle is force-closed and released, the per-IP accounting is
released (`recordSessionEnd`), and a `close` event is sent to the client.
(6) Along any trace in which the handshake resolves while the timer is
pending, a session handle on a still-open connection always has a pending
timer.  (7) Well-formedness forbids delivering any event beyond a pending
deadline, so with (6) no upstream session outlives its deadline, which by (2)
is open-time + ceiling. -/
theorem C3_duration_cap :
    SESSION_MAX_DURATION_MS = 8 * 60 * 1000 ∧
    (∀ (now : Int) (c : Conn) (r : Option RLEntry),
      (onUpstreamOpen now c r).1.timerDeadline =
        some (now + SESSION_MAX_DURATION_MS)) ∧
    (∀ (now : Int) (c : Conn) (r : Option RLEntry) (m : CMsg),
      (onClientMsg now c r m).1.timerDeadline = c.timerDeadline) ∧
    (∀ (c : Conn) (p : String),
      (onUpstreamMsg c p).timerDeadline = c.timerDeadline) ∧
    (∀ (c : Conn) (r : Option RLEntry), c.sessionSet = true →
      c.closed = false →
      (onTimerFire c r).1.sessionSet = false ∧
      (onTimerFire c r).1.upLog = c.upLog ++ [.closeSession] ∧
      (onTimerFire c r).2 = recordSessionEnd r ∧
      (onTimerFire c r).1.sent = c.sent ++ [.closeEv]) ∧
    (∀ es : List TEv, promptTrace es = true →
      (runGw (initConn, none) es).1.sessionSet = true →
      (runGw (initConn, none) es).1.closed = false →
      (runGw (initConn, none) es).1.timerDeadline.isSome = true) ∧
    (∀ (lt : Option Int) (s : Conn × Option RLEntry) (te : TEv),
      admissible lt s te = true →
      ∀ d : Int, s.1.timerDeadline = some d → te.time ≤ d) := by
  refine ⟨rfl, ?_, ?_, ?_, ?_, ?_, ?_⟩
  · intro now c r
    show (sendEv _ _).timerDeadline = _
    rw [(sendEv_spec _ _).2.2.2.2.2.2.1]
  · intro now c r m
    exact (onClientMsg_spec now c r m).2.2.1
  · intro c p
    exact (sendEv_spec _ _).2.2.2.2.2.2.1
  · intro c r hs hc
    simp [onTimerFire, sendEv, hs, hc]
  · intro es hp
    exact invC3_run es (initConn, none) hp (by intro h; simp [initConn] at h)
  · intro lt s te hadm d hd
    simp only [admissible, Bool.and_eq_true] at hadm
    have := hadm.1.2
    rw [hd] at this
    exact of_decide_eq_true this

/-- Witness for C3 at concrete states and a concrete prompt trace. -/
theorem C3_duration_cap_witness :
    (onUpstreamOpen 100 initConn none).1.timerDeadline =
      some (100 + SESSION_MAX_DURATION_MS) ∧
    (onTimerFire { initConn with sessionSet := true }
        (some ⟨1, [0]⟩)).1.sessionSet = false ∧
    ((runGw (initConn, none)
        [⟨0, .clientMsg (.init (some "Spanish") (some "gato") none)⟩,
         ⟨1, .upstreamOpen⟩, ⟨1, .upstreamResolve⟩]).1.sessionSet = true →
      (runGw (initConn, none)
        [⟨0, .clientMsg (.init (some "Spanish") (some "gato") none)⟩,
         ⟨1, .upstreamOpen⟩, ⟨1, .upstreamResolve⟩]).1.closed = false →
      (runGw (initConn, none)
        [⟨0, .clientMsg (.init (some "Spanish") (some "gato") none)⟩,
         ⟨1, .upstreamOpen⟩, ⟨1, .upstreamResolve⟩]).1.timerDeadline.isSome
        = true) ∧
    (∀ d : Int,
      ({ initConn with timerDeadline := some 7 } : Conn).timerDeadline =
        some d → (3 : Int) ≤ d) :=
  ⟨C3_duration_cap.2.1 100 initConn none,
   (C3_duration_cap.2.2.2.2.1 { initConn with sessionSet := true }
     (some ⟨1, [0]⟩) rfl rfl).1,
   C3_duration_cap.2.2.2.2.2.1
     [⟨0, .clientMsg (.init (some "Spanish") (some "gato") none)⟩,
      ⟨1, .upstreamOpen⟩, ⟨1, .upstreamResolve⟩] (by decide),
   C3_duration_cap.2.2.2.2.2.2 (some 2)
     ({ initConn with timerDeadline := some 7 }, none) ⟨3, .wsClose⟩
     (by decide)⟩

/-- C4: the rolling rate limit with M = 20 sessions/hour.  (1) The limit
constant is 20.  (2) The stored timestamps are pruned to the trailing hour
before every count (and the pruned list is what is stored back).  (3) If,
after pruning, at least 20 timestamps remain in the window (and the
concurrency limit is not the binding one), the check rejects with the
rate-limit error.  (4) If pruning leaves fewer than 20 in-window timestamps,
the check allows the attempt — so once an old timestamp falls outside the
window, a subsequent attempt is allowed.  (5) At the gateway handler level, an
`init` arriving in that saturated state is answered with the rate-limit error
event, no connect is issued, and the pruned entry is stored. -/
theorem C4_rate_limit :
    MAX_SESSIONS_PER_IP_PER_HOUR = 20 ∧
    (∀ (r : Option RLEntry) (now : Int),
      (checkLiveRateLimit r now).1 =
        ⟨rlCount r, (rlTimes r).filter (fun t => now - 60 * 60 * 1000 < t)⟩) ∧
    (∀ (e : RLEntry) (now : Int),
      e.count < MAX_CONCURRENT_SESSIONS_PER_IP →
      MAX_SESSIONS_PER_IP_PER_HOUR ≤
        (e.timestamps.filter (fun t => now - 60 * 60 * 1000 < t)).length →
      checkLiveRateLimit (some e) now =
        (⟨e.count, e.timestamps.filter (fun t => now - 60 * 60 * 1000 < t)⟩,
         false, "Rate limit exceeded")) ∧
    (∀ (e : RLEntry) (now : Int),
      e.count < MAX_CONCURRENT_SESSIONS_PER_IP →
      (e.timestamps.filter (fun t => now - 60 * 60 * 1000 < t)).length <
        MAX_SESSIONS_PER_IP_PER_HOUR →
      (checkLiveRateLimit (some e) now).2 = (true, "")) ∧
    (∀ (now : Int) (c : Conn) (e : RLEntry) (lang ctx : String)
        (md : Option String),
      c.initDone = false → lang ≠ "" → ctx ≠ "" →
      e.count < MAX_CONCURRENT_SESSIONS_PER_IP →
      MAX_SESSIONS_PER_IP_PER_HOUR ≤
        (e.timestamps.filter (fun t => now - 60 * 60 * 1000 < t)).length →
      onClientMsg now c (some e) (.init (some lang) (some ctx) md) =
        (sendEv c (.errorEv "Rate limit exceeded"),
         some ⟨e.count,
           e.timestamps.filter (fun t => now - 60 * 60 * 1000 < t)⟩)) := by
  have hchk : ∀ (e : RLEntry) (now : Int),
      e.count < MAX_CONCURRENT_SESSIONS_PER_IP →
      MAX_SESSIONS_PER_IP_PER_HOUR ≤
        (e.timestamps.filter (fun t => now - 60 * 60 * 1000 < t)).length →
      checkLiveRateLimit (some e) now =
        (⟨e.count, e.timestamps.filter (fun t => now - 60 * 60 * 1000 < t)⟩,
         false, "Rate limit exceeded") := by
    intro e now h1 h2
    simp only [checkLiveRateLimit, Option.getD_some]
    rw [if_neg (by simpa using not_le.mpr h1), if_pos (by simpa using h2)]
  refine ⟨rfl, checkLiveRateLimit_fst, hchk, ?_, ?_⟩
  · intro e now h1 h2
    simp only [checkLiveRateLimit, Option.getD_some]
    rw [if_neg (by simpa using not_le.mpr h1),
        if_neg (by simpa using not_le.mpr h2)]
  · intro now c e lang ctx md hd hlang hctx h1 h2
    simp only [onClientMsg, Option.getD_some]
    rw [if_neg (by simp [hd]), if_neg (by simp [hlang, hctx]), hchk e now h1 h2]
    rfl

/-- Witness for C4 at a saturated entry (20 in-window timestamps) and after
one timestamp ages out of the window. -/
theorem C4_rate_limit_witness :
    checkLiveRateLimit
        (some ⟨0, [1, 2, 3, 4, 5, 6, 7, 8, 9, 10, 11, 12, 13, 14, 15, 16, 17,
          18, 19, 20]⟩) 100 =
      (⟨0, [1, 2, 3, 4, 5, 6, 7, 8, 9, 10, 11, 12, 13, 14, 15, 16, 17, 18, 19,
        20]⟩, false, "Rate limit exceeded") ∧
    (checkLiveRateLimit
        (some ⟨0, [1, 2, 3, 4, 5, 6, 7, 8, 9, 10, 11, 12, 13, 14, 15, 16, 17,
          18, 19, 20]⟩) (3600001 + 1)).2 = (true, "") ∧
    onClientMsg 100 initConn
        (some ⟨0, [1, 2, 3, 4, 5, 6, 7, 8, 9, 10, 11, 12, 13, 14, 15, 16, 17,
          18, 19, 20]⟩)
        (.init (some "Spanish") (some "gato") none) =
      (sendEv initConn (.errorEv "Rate limit exceeded"),
       some ⟨0, [1, 2, 3, 4, 5, 6, 7, 8, 9, 10, 11, 12, 13, 14, 15, 16, 17,
         18, 19, 20]⟩) := by
  refine ⟨?_, ?_, ?_⟩
  · have h := C4_rate_limit.2.2.1
      ⟨0, [1, 2, 3, 4, 5, 6, 7, 8, 9, 10, 11, 12, 13, 14, 15, 16, 17, 18, 19,
        20]⟩ 100 (by decide) (by decide)
    simpa using h
  · have h := C4_rate_limit.2.2.2.1
      ⟨0, [1, 2, 3, 4, 5, 6, 7, 8, 9, 10, 11, 12, 13, 14, 15, 16, 17, 18, 19,
        20]⟩ (3600001 + 1) (by decide) (by decide)
    simpa using h
  · have h := C4_rate_limit.2.2.2.2 100 initConn
      ⟨0, [1, 2, 3, 4, 5, 6, 7, 8, 9, 10, 11, 12, 13, 14, 15, 16, 17, 18, 19,
        20]⟩ "Spanish" "gato" none rfl (by decide) (by decide) (by decide)
      (by decide)
    simpa using h

/-- C5 counterexample: connection A on some IP has an accepted `init` and an
upstream open, so the IP's entry is `{count := 1, timestamps := [1]}`.
Connection B from the same IP never sends any message; when B's socket
closes, the gateway's close handler unconditionally calls `recordSessionEnd`,
and the IP's concurrent count drops to 0 even though A's session is still
open — the counters are mutated by a connection that never started a session,
refuting the claim. -/
theorem C5_counterexample :
    (runGw (initConn, none)
      [⟨0, .clientMsg (.init (some "Spanish") (some "gato") none)⟩,
       ⟨1, .upstreamOpen⟩]).2 = some ⟨1, [1]⟩ ∧
    (onWsClose initConn
      (runGw (initConn, none)
        [⟨0, .clientMsg (.init (some "Spanish") (some "gato") none)⟩,
         ⟨1, .upstreamOpen⟩]).2).2 = some ⟨0, [1]⟩ := by
  constructor <;> rfl

/-- C5 amended: the stored concurrent count is never changed by handling a
client message (in particular not by rejected `init` attempts), but the
timestamp list may be pruned to the trailing hour by any `init` attempt's
admission check; the count is incremented and the timestamp appended only at
upstream-open; and every connection close and every timer fire runs
`recordSessionEnd`, which decrements the IP's count whenever it is positive —
even for connections whose `init` was rejected or never sent — while leaving
the timestamps unchanged. -/
theorem C5_amended :
    (∀ (now : Int) (c : Conn) (r : Option RLEntry) (m : CMsg),
      rlCount (onClientMsg now c r m).2 = rlCount r ∧
      (rlTimes (onClientMsg now c r m).2 = rlTimes r ∨
       rlTimes (onClientMsg now c r m).2 =
         (rlTimes r).filter (fun t => now - 60 * 60 * 1000 < t))) ∧
    (∀ (now : Int) (c : Conn) (r : Option RLEntry), r.isSome →
      rlCount (onUpstreamOpen now c r).2 = rlCount r + 1 ∧
      rlTimes (onUpstreamOpen now c r).2 = rlTimes r ++ [now]) ∧
    (∀ (c : Conn) (r : Option RLEntry),
      (onWsClose c r).2 = recordSessionEnd r ∧
      (onTimerFire c r).2 = recordSessionEnd r) ∧
    (∀ r : Option RLEntry,
      rlCount (recordSessionEnd r) = rlCount r - 1 ∧
      rlTimes (recordSessionEnd r) = rlTimes r) := by
  refine ⟨?_, ?_, ?_, ?_⟩
  · intro now c r m
    exact ⟨(onClientMsg_spec now c r m).2.2.2.2.2.1,
      (onClientMsg_spec now c r m).2.2.2.2.2.2⟩
  · intro now c r hr
    obtain ⟨e, he⟩ := Option.isSome_iff_exists.mp hr
    subst he
    simp [onUpstreamOpen, recordSessionStart, rlCount, rlTimes]
  · intro c r
    exact ⟨rfl, rfl⟩
  · intro r
    cases r with
    | none => simp [recordSessionEnd, rlCount, rlTimes]
    | some e =>
      by_cases hpos : 0 < e.count
      · simp [recordSessionEnd, hpos, rlCount, rlTimes]
      · have h0 : e.count = 0 := by omega
        simp [recordSessionEnd, hpos, rlCount, rlTimes, h0]

/-- Witness for C5 amended at concrete states: a rejected `init` (invalid
language) leaves the count unchanged, an upstream open increments it, and
`recordSessionEnd` decrements it. -/
theorem C5_amended_witness :
    (rlCount (onClientMsg 0 initConn (some ⟨2, [5]⟩)
        (.init (some "Klingon") (some "gato") none)).2 = 2 ∧
      (rlTimes (onClientMsg 0 initConn (some ⟨2, [5]⟩)
          (.init (some "Klingon") (some "gato") none)).2 = [5] ∨
        rlTimes (onClientMsg 0 initConn (some ⟨2, [5]⟩)
          (.init (some "Klingon") (some "gato") none)).2 =
          ([5] : List Int).filter (fun t => 0 - 60 * 60 * 1000 < t))) ∧
    rlCount (onUpstreamOpen 9 initConn (some ⟨2, [5]⟩)).2 = 3 ∧
    (onWsClose initConn (some ⟨2, [5]⟩)).2 = recordSessionEnd (some ⟨2, [5]⟩) ∧
    rlCount (recordSessionEnd (some ⟨2, [5]⟩)) = 1 :=
  ⟨C5_amended.1 0 initConn (some ⟨2, [5]⟩)
     (.init (some "Klingon") (some "gato") none),
   (C5_amended.2.1 9 initConn (some ⟨2, [5]⟩) rfl).1,
   (C5_amended.2.2.1 initConn (some ⟨2, [5]⟩)).1,
   (C5_amended.2.2.2 (some ⟨2, [5]⟩)).1⟩

/-- A non-queueable client message changes neither the pending queue nor the
upstream log. -/
theorem onClientMsg_noQueue (now : Int) (c : Conn) (r : Option RLEntry)
    (m : CMsg) (hm : (msgToCall m).isSome = false) :
    (onClientMsg now c r m).1.pending = c.pending ∧
    (onClientMsg now c r m).1.upLog = c.upLog := by
  cases m with
  | init lang ctx md =>
    simp only [onClientMsg]
    split
    · exact ⟨rfl, rfl⟩
    · split
      · exact ⟨(sendEv_spec _ _).2.2.2.2.2.2.2.1,
          (sendEv_spec _ _).2.2.2.2.2.2.2.2.1⟩
      · split
        · exact ⟨(sendEv_spec _ _).2.2.2.2.2.2.2.1,
            (sendEv_spec _ _).2.2.2.2.2.2.2.2.1⟩
        · split
          · exact ⟨(sendEv_spec _ _).2.2.2.2.2.2.2.1,
              (sendEv_spec _ _).2.2.2.2.2.2.2.2.1⟩
          · exact ⟨rfl, rfl⟩
  | realtime audio =>
    cases audio with
    | none => exact ⟨rfl, rfl⟩
    | some a => simp [msgToCall] at hm
  | content turns tc =>
    cases turns with
    | none => exact ⟨rfl, rfl⟩
    | some ts => simp [msgToCall] at hm
  | other => exact ⟨rfl, rfl⟩

/-- While no upstream handle exists, any step other than a resolve keeps the
handle absent, relays nothing, and extends the pending queue exactly by the
queueable client message handled (if any). -/
theorem stepT_noResolve (s : Conn × Option RLEntry) (te : TEv)
    (hne : te.ev ≠ Ev.upstreamResolve) (hs : s.1.sessionSet = false) :
    (stepT s te).1.sessionSet = false ∧
    (stepT s te).1.upLog = s.1.upLog ∧
    (stepT s te).1.pending = s.1.pending ++
      (match te.ev with
       | .clientMsg m => if (msgToCall m).isSome then [m] else []
       | _ => []) := by
  obtain ⟨c, r⟩ := s
  obtain ⟨t, e⟩ := te
  have hs' : c.sessionSet = false := hs
  cases e with
  | clientMsg m =>
    by_cases hm : (msgToCall m).isSome
    · have h := onClientMsg_queue t c r m hs hm
      refine ⟨?_, ?_, ?_⟩
      · show (onClientMsg t c r m).1.sessionSet = false
        rw [h]; exact hs'
      · show (onClientMsg t c r m).1.upLog = c.upLog
        rw [h]
      · show (onClientMsg t c r m).1.pending = c.pending ++ _
        rw [h]; simp [hm]
    · have h := onClientMsg_noQueue t c r m (by simpa using hm)
      have h2 := (onClientMsg_spec t c r m).1
      refine ⟨?_, ?_, ?_⟩
      · show (onClientMsg t c r m).1.sessionSet = false
        rw [h2]; exact hs
      · exact h.2
      · simp only [hm, if_false, Bool.false_eq_true, List.append_nil]
        exact h.1
  | upstreamOpen =>
    refine ⟨?_, ?_, ?_⟩
    · show (sendEv _ _).sessionSet = false
      rw [(sendEv_spec _ _).2.2.2.2.2.1]; exact hs
    · exact (sendEv_spec _ _).2.2.2.2.2.2.2.2.1
    · simpa using (sendEv_spec _ _).2.2.2.2.2.2.2.1
  | upstreamResolve => exact absurd rfl hne
  | upstreamFail =>
    refine ⟨?_, ?_, ?_⟩
    · show (sendEv _ _).sessionSet = false
      rw [(sendEv_spec _ _).2.2.2.2.2.1]; exact hs
    · exact (sendEv_spec _ _).2.2.2.2.2.2.2.2.1
    · simpa using (sendEv_spec _ _).2.2.2.2.2.2.2.1
  | upstreamMsg p =>
    refine ⟨?_, ?_, ?_⟩
    · show (sendEv _ _).sessionSet = false
      rw [(sendEv_spec _ _).2.2.2.2.2.1]; exact hs
    · exact (sendEv_spec _ _).2.2.2.2.2.2.2.2.1
    · simpa using (sendEv_spec _ _).2.2.2.2.2.2.2.1
  | upstreamErr =>
    refine ⟨?_, ?_, ?_⟩
    · show (sendEv _ _).sessionSet = false
      rw [(sendEv_spec _ _).2.2.2.2.2.1]; exact hs
    · exact (sendEv_spec _ _).2.2.2.2.2.2.2.2.1
    · simpa using (sendEv_spec _ _).2.2.2.2.2.2.2.1
  | upstreamClose =>
    refine ⟨?_, ?_, ?_⟩
    · show (sendEv _ _).sessionSet = false
      rw [(sendEv_spec _ _).2.2.2.2.2.1]; exact hs
    · exact (sendEv_spec _ _).2.2.2.2.2.2.2.2.1
    · simpa using (sendEv_spec _ _).2.2.2.2.2.2.2.1
  | timerFire =>
    refine ⟨onTimerFire_sessionSet c r, ?_, ?_⟩
    · show (sendEv _ _).upLog = c.upLog
      rw [(sendEv_spec _ _).2.2.2.2.2.2.2.2.1]
      split
      · rename_i hcond; simp [hs'] at hcond
      · rfl
    · show (sendEv _ _).pending = c.pending ++ []
      rw [(sendEv_spec _ _).2.2.2.2.2.2.2.1, List.append_nil]
      split
      · rename_i hcond; simp [hs'] at hcond
      · rfl
  | wsClose =>
    simp only [stepT, onWsClose]
    split
    · rename_i hcond; simp [hs'] at hcond
    · exact ⟨hs', rfl, by simp⟩

/-- Along any trace without a resolve event, starting from a state without an
upstream handle: the handle never appears, nothing is ever relayed upstream,
and the pending queue grows by exactly the queueable client messages of the
trace, in arrival order. -/
theorem runGw_noResolve (es : List TEv) :
    ∀ s : Conn × Option RLEntry, s.1.sessionSet = false →
      (∀ te ∈ es, te.ev ≠ Ev.upstreamResolve) →
      (runGw s es).1.sessionSet = false ∧
      (runGw s es).1.upLog = s.1.upLog ∧
      (runGw s es).1.pending = s.1.pending ++ collectQueued es := by
  induction es with
  | nil => intro s hs _; exact ⟨hs, rfl, by simp [runGw, collectQueued]⟩
  | cons te rest ih =>
    intro s hs hne
    have hstep := stepT_noResolve s te (hne te (List.mem_cons_self _ _)) hs
    have hrest := ih (stepT s te) hstep.1
      (fun te2 h2 => hne te2 (List.mem_cons_of_mem _ h2))
    have hcollect : collectQueued (te :: rest) =
        (match te.ev with
         | .clientMsg m => if (msgToCall m).isSome then [m] else []
         | _ => []) ++ collectQueued rest := by
      simp only [collectQueued, List.filterMap_cons]
      cases he : te.ev with
      | clientMsg m =>
        by_cases hm : (msgToCall m).isSome <;> simp [hm]
      | _ => simp
    refine ⟨hrest.1, ?_, ?_⟩
    · rw [show runGw s (te :: rest) = runGw (stepT s te) rest from rfl,
        hrest.2.1, hstep.2.1]
    · rw [show runGw s (te :: rest) = runGw (stepT s te) rest from rfl,
        hrest.2.2, hstep.2.2, hcollect, List.append_assoc]

/-- The duration-timer callback leaves the client socket in whatever state it
was: it does not close the client connection. -/
theorem onTimerFire_closed (c : Conn) (r : Option RLEntry) :
    (onTimerFire c r).1.closed = c.closed := by
  simp only [onTimerFire]
  rw [(sendEv_spec _ _).2.2.2.2.2.2.2.2.2]
  split <;> rfl

/-- C10: whenever no upstream handle exists, (1) every queueable
`realtime`/`content` message is appended to the pending queue with no relay,
no reply, and no other state change (the queue has no size check, so it is
unbounded); (2) the duration-cap fire removes the handle but leaves the
client connection open; and (3) along any continuation in which the upstream
never (re)opens — no resolve event — the handle never appears, nothing is
ever relayed upstream, and the pending queue is exactly the old queue plus
every queueable client message of the continuation, in order: the messages
are never relayed, never answered, and never discarded. -/
theorem C10_pending_queue :
    (∀ (now : Int) (c : Conn) (r : Option RLEntry) (m : CMsg),
      c.sessionSet = false → (msgToCall m).isSome →
      onClientMsg now c r m = ({ c with pending := c.pending ++ [m] }, r)) ∧
    (∀ (c : Conn) (r : Option RLEntry),
      (onTimerFire c r).1.sessionSet = false ∧
      (onTimerFire c r).1.closed = c.closed) ∧
    (∀ (es : List TEv) (s : Conn × Option RLEntry),
      s.1.sessionSet = false →
      (∀ te ∈ es, te.ev ≠ Ev.upstreamResolve) →
      (runGw s es).1.sessionSet = false ∧
      (runGw s es).1.upLog = s.1.upLog ∧
      (runGw s es).1.pending = s.1.pending ++ collectQueued es) := by
  exact ⟨onClientMsg_queue,
    fun c r => ⟨onTimerFire_sessionSet c r, onTimerFire_closed c r⟩,
    fun es s hs hne => runGw_noResolve es s hs hne⟩

/-- Witness for C10: a queueable message on a handle-less connection, a timer
fire, and a concrete resolve-free continuation after a fire. -/
theorem C10_pending_queue_witness :
    onClientMsg 7 initConn none
        (.realtime (some ⟨"QQ", "audio/pcm;rate=16000"⟩)) =
      ({ initConn with
          pending := [CMsg.realtime (some ⟨"QQ", "audio/pcm;rate=16000"⟩)] },
       none) ∧
    (onTimerFire { initConn with sessionSet := true } none).1.closed = false ∧
    ((runGw (initConn, none)
        [⟨1, .clientMsg (.realtime (some ⟨"QQ", "audio/pcm;rate=16000"⟩))⟩,
         ⟨2, .clientMsg (.content (some []) (some false))⟩]).1.sessionSet
        = false ∧
      (runGw (initConn, none)
        [⟨1, .clientMsg (.realtime (some ⟨"QQ", "audio/pcm;rate=16000"⟩))⟩,
         ⟨2, .clientMsg (.content (some []) (some false))⟩]).1.upLog
        = (initConn, (none : Option RLEntry)).1.upLog ∧
      (runGw (initConn, none)
        [⟨1, .clientMsg (.realtime (some ⟨"QQ", "audio/pcm;rate=16000"⟩))⟩,
         ⟨2, .clientMsg (.content (some []) (some false))⟩]).1.pending
        = (initConn, (none : Option RLEntry)).1.pending ++
          collectQueued
            [⟨1, .clientMsg (.realtime (some ⟨"QQ", "audio/pcm;rate=16000"⟩))⟩,
             ⟨2, .clientMsg (.content (some []) (some false))⟩]) :=
  ⟨C10_pending_queue.1 7 initConn none
     (.realtime (some ⟨"QQ", "audio/pcm;rate=16000"⟩)) rfl rfl,
   (C10_pending_queue.2.1 { initConn with sessionSet := true } none).2,
   C10_pending_queue.2.2
     [⟨1, .clientMsg (.realtime (some ⟨"QQ", "audio/pcm;rate=16000"⟩))⟩,
      ⟨2, .clientMsg (.content (some []) (some false))⟩]
     (initConn, none) rfl (by decide)⟩

/-! ## Client microphone lemmas -/

/-- A step never changes the pronunciation mode. -/
theorem clStep_mode (st : CState) (e : ClEv) :
    (clStep st e).pronunciationMode = st.pronunciationMode := by
  cases e <;> simp only [clStep] <;> split <;> rfl

/-- In a non-score mode, capture stays off along any trace without an audio
chunk. -/
theorem clRun_noChunk (es : List ClEv) :
    ∀ st : CState, st.micStarted = false →
      st.pronunciationMode ≠ "score" →
      (∀ e ∈ es, e ≠ ClEv.audioChunk) →
      (clRun st es).micStarted = false := by
  induction es with
  | nil => intro st h _ _; exact h
  | cons e rest ih =>
    intro st h hmode hne
    have hrest := fun e2 h2 => hne e2 (List.mem_cons_of_mem _ h2)
    cases e with
    | openEv =>
      refine ih _ ?_ ?_ hrest
      · simp only [clStep]
        rw [if_neg (by simpa using hmode)]
        exact h
      · rw [clStep_mode]; exact hmode
    | audioChunk => exact absurd rfl (hne _ (List.mem_cons_self _ _))
    | textPart => exact ih _ h hmode hrest
    | interrupted => exact ih _ h hmode hrest
    | errorEv => exact ih _ h hmode hrest
    | closeEv => exact ih _ h hmode hrest

/-- The permission-requested flag is monotone. -/
theorem clRun_perm_mono (es : List ClEv) :
    ∀ st : CState, st.micPermRequested = true →
      (clRun st es).micPermRequested = true := by
  induction es with
  | nil => intro st h; exact h
  | cons e rest ih =>
    intro st h
    refine ih _ ?_
    cases e with
    | openEv => simp only [clStep]; split <;> rfl
    | audioChunk => simp [clStep, h]; split <;> simp [h]
    | textPart => exact h
    | interrupted => exact h
    | errorEv => exact h
    | closeEv => exact h

/-- After an `open` event anywhere in the trace, the microphone permission
has been requested (in every mode). -/
theorem clRun_perm_of_open (es : List ClEv) :
    ∀ st : CState, ClEv.openEv ∈ es →
      (clRun st es).micPermRequested = true := by
  induction es with
  | nil => intro st h; simp at h
  | cons e rest ih =>
    intro st h
    cases e with
    | openEv =>
      refine clRun_perm_mono rest _ ?_
      simp only [clStep]
      split <;> rfl
    | audioChunk =>
      rcases List.mem_cons.mp h with h1 | h1
      · exact absurd h1 (by simp)
      · exact ih _ h1
    | textPart =>
      rcases List.mem_cons.mp h with h1 | h1
      · exact absurd h1 (by simp)
      · exact ih _ h1
    | interrupted =>
      rcases List.mem_cons.mp h with h1 | h1
      · exact absurd h1 (by simp)
      · exact ih _ h1
    | errorEv =>
      rcases List.mem_cons.mp h with h1 | h1
      · exact absurd h1 (by simp)
      · exact ih _ h1
    | closeEv =>
      rcases List.mem_cons.mp h with h1 | h1
      · exact absurd h1 (by simp)
      · exact ih _ h1

/-- C6 counterexample: in guide mode, after the gateway's `open` event alone —
no provider audio chunk has been observed — the client has already called
`getUserMedia` (the permission request happens in the `open` handler,
unconditionally, before any mode check), refuting "permission is requested
only at the first provider audio chunk".  Capture has indeed not started. -/
theorem C6_mic_counterexample :
    (clRun (clInit "guide") [ClEv.openEv]).micPermRequested = true ∧
    ClEv.audioChunk ∉ [ClEv.openEv] ∧
    (clRun (clInit "guide") [ClEv.openEv]).micStarted = false := by
  refine ⟨rfl, by decide, rfl⟩

/-- C6 amended: microphone permission is requested eagerly at the `open`
event in both modes (and also at the first audio chunk if no stream exists
yet); what is lazy in guide mode is capture: (1) in any non-score mode,
capture never starts along a trace without an audio chunk; (2) permission has
been requested as soon as `open` was processed, in every mode; (3) in score
mode capture starts immediately at `open`; (4) an audio chunk always starts
capture. -/
theorem C6_mic_amended :
    (∀ (mode : String) (es : List ClEv), mode ≠ "score" →
      (∀ e ∈ es, e ≠ ClEv.audioChunk) →
      (clRun (clInit mode) es).micStarted = false) ∧
    (∀ (mode : String) (es : List ClEv), ClEv.openEv ∈ es →
      (clRun (clInit mode) es).micPermRequested = true) ∧
    (clStep (clInit "score") ClEv.openEv).micStarted = true ∧
    (∀ st : CState, (clStep st ClEv.audioChunk).micStarted = true) := by
  refine ⟨?_, ?_, rfl, ?_⟩
  · intro mode es hmode hne
    exact clRun_noChunk es (clInit mode) rfl hmode hne
  · intro mode es h
    exact clRun_perm_of_open es (clInit mode) h
  · intro st
    simp only [clStep]
    split
    · assumption
    · rfl

/-- Witness for C6 amended at concrete guide/score traces. -/
theorem C6_mic_amended_witness :
    (clRun (clInit "guide") [ClEv.openEv, ClEv.textPart]).micStarted = false ∧
    (clRun (clInit "guide") [ClEv.openEv, ClEv.textPart]).micPermRequested
      = true ∧
    (clStep (clInit "score") ClEv.openEv).micStarted = true ∧
    (clStep (clInit "guide") ClEv.audioChunk).micStarted = true :=
  ⟨C6_mic_amended.1 "guide" [ClEv.openEv, ClEv.textPart] (by decide)
     (by decide),
   C6_mic_amended.2.1 "guide" [ClEv.openEv, ClEv.textPart] (by decide),
   C6_mic_amended.2.2.1,
   C6_mic_amended.2.2.2 (clInit "guide")⟩
